import Mathlib

/-!
# Elevation server: grid reader, name decoder, tile splitter, storage writer and file pipeline

A shallow embedding of `cmd/make_data/main.go` and `pkg/dem/writer.go`.

Conventions of the embedding:

* Go `int` and `int64` values are Lean `Int`s; loop counters and lengths are `Nat`s
  that are cast into `Int` wherever the source does arithmetic with them. The values
  are tile coordinates and buffer offsets, far below the 64-bit limit, so the
  arithmetic is modelled without wrap-around.
* A Go array or slice of bytes is a `List Byte`.
* Code that can abort with a run-time panic returns `Except String`, the
  `error` side carrying the panic message.
* The constants `HgtSize`, `HgtSplitParts` and `TileSize` of package `dem` are
  the parameters `N`, `S` and `T`.
* A Go string is the list of its runes.
-/

namespace ElevationServer

/-- One byte of a buffer. -/
abbrev Byte := Fin 256

/-! ## Go slices -/

/-- The slice expression `a[lo:hi]` of Go: it panics unless `0 ≤ lo ≤ hi ≤ len(a)`. -/
def goSlice {α : Type} (a : List α) (lo hi : Int) : Except String (List α) :=
  if 0 ≤ lo ∧ lo ≤ hi ∧ hi ≤ (a.length : Int) then
    Except.ok ((a.drop lo.toNat).take (hi.toNat - lo.toNat))
  else
    Except.error "slice bounds out of range"

/-- The builtin `copy(a[off:], src)` of Go for `off ≤ len(a)`: the number of
elements copied is the smaller of the two lengths, and `a` is updated in place. -/
def goCopyAt {α : Type} (a : List α) (off : Nat) (src : List α) : Nat × List α :=
  let n := min (a.length - off) src.length
  (n, a.take off ++ src.take n ++ a.drop (off + n))

/-! ## `cmd/make_data`: the data model -/

/-- Go `HgtIndex`: the cell of one input file, in integer degrees. -/
structure HgtIndex where
  lat : Int
  lon : Int
deriving DecidableEq, Repr

/-- Modelled from the spec: Go `dem.TileIndex`, whose declaration is not in the sources; a tile
has global integer coordinates (X, Y) in split-grid space. -/
structure TileIndex where
  X : Int
  Y : Int
deriving DecidableEq, Repr

/-- Modelled from the spec: Go `dem.TileRaw`, whose declaration is not in the sources; a tile
carries its coordinates and a fixed-size raw payload of T×T samples of 16 bits, the byte
array `dem.TileRawData`. -/
structure TileRaw where
  Index : TileIndex
  Data : List Byte
deriving DecidableEq, Repr

/-- The zero value of `dem.TileRaw` for tile size `T`. -/
def TileRaw.zero (T : Nat) : TileRaw :=
  { Index := { X := 0, Y := 0 }, Data := List.replicate (T * T * 2) 0 }

/-! ## `splitDem` -/

/-- The body of the `row` loop of `splitDem` (lines 96-101), acting on `tile.Data`. -/
def splitRow (N T : Nat) (data : List Byte) (tileDx tileDy : Nat)
    (tileData : List Byte) (row : Nat) : Except String (List Byte) :=
  let hgtRow : Int := (N : Int) - 1 - (tileDy : Int) * ((T : Int) - 1) - (row : Int)
  let hgtIndex : Int := hgtRow * (N : Int) + (tileDx : Int) * ((T : Int) - 1)
  let dstOff : Int := (row : Int) * (T : Int) * 2
  if 0 ≤ dstOff ∧ dstOff ≤ (tileData.length : Int) then
    match goSlice data (hgtIndex * 2) ((hgtIndex + (T : Int)) * 2) with
    | Except.error e => Except.error e
    | Except.ok src =>
      let r := goCopyAt tileData dstOff.toNat src
      if r.1 ≠ T * 2 then Except.error "invalid number of bytes copied"
      else Except.ok r.2
  else
    Except.error "slice bounds out of range"

/-- The body of the `tileDy` loop of `splitDem` (lines 89-102), acting on `tiles`. -/
def splitTile (N S T : Nat) (index : HgtIndex) (data : List Byte) (tileDx : Nat)
    (tiles : List TileRaw) (tileDy : Nat) : Except String (List TileRaw) :=
  let tileX : Int := index.lon * (S : Int) + (tileDx : Int)
  let tileY : Int := index.lat * (S : Int) + (tileDy : Int)
  let tileI : Nat := tileDy * S + tileDx
  match tiles[tileI]? with
  | none => Except.error "index out of range"
  | some tile =>
    match (List.range T).foldlM (splitRow N T data tileDx tileDy) tile.Data with
    | Except.error e => Except.error e
    | Except.ok d => Except.ok (tiles.set tileI { Index := { X := tileX, Y := tileY }, Data := d })

/-- Go `splitDem`: the `S*S` tiles of one cell, or the panic that aborts it. -/
def splitDem (N S T : Nat) (index : HgtIndex) (data : List Byte) :
    Except String (List TileRaw) :=
  (List.range S).foldlM
    (fun tiles tileDx => (List.range S).foldlM (splitTile N S T index data tileDx) tiles)
    (List.replicate (S * S) (TileRaw.zero T))

/-! ## `hgtIndexFromName` -/

/-- Go `unicode.ToUpper` on one rune: an ASCII letter `a`-`z` loses 32, any other ASCII rune
is kept, and a rune above ASCII is mapped by the Unicode case tables of the Go library,
which are the parameter `tbl`. -/
def toUpperRune (tbl : Char → Char) (c : Char) : Char :=
  if c.toNat < 128 then c.toUpper else tbl c

/-- Go `strings.ToUpper` on a string held as its list of runes. -/
def goToUpper (tbl : Char → Char) (s : List Char) : List Char :=
  s.map (toUpperRune tbl)

/-- A match of the regular expression `([NS])(\d{2})([EW])(\d{3})\.HGT` that starts at the head
of `s`: the four capture groups `m[1]`, `m[2]`, `m[3]`, `m[4]`. -/
def matchHere : List Char → Option (Char × List Char × Char × List Char)
  | h1 :: d1 :: d2 :: h2 :: d3 :: d4 :: d5 :: p :: x :: y :: z :: _ =>
    if (h1 = 'N' ∨ h1 = 'S') ∧ d1.isDigit = true ∧ d2.isDigit = true ∧
        (h2 = 'E' ∨ h2 = 'W') ∧ d3.isDigit = true ∧ d4.isDigit = true ∧ d5.isDigit = true ∧
        p = '.' ∧ x = 'H' ∧ y = 'G' ∧ z = 'T' then
      some (h1, [d1, d2], h2, [d3, d4, d5])
    else none
  | _ => none

/-- Go `re.FindStringSubmatch`: the capture groups of the leftmost match of the regular
expression of `hgtIndexFromName` in `s`, or `none` (Go `nil`) when there is no match. -/
def findStringSubmatch : List Char → Option (Char × List Char × Char × List Char)
  | [] => none
  | c :: cs =>
    match matchHere (c :: cs) with
    | some m => some m
    | none => findStringSubmatch cs

/-- The digit loop of `strconv.Atoi`: `n = n*10 + int(ch - '0')`, a syntax error on any
byte that is not a decimal digit. -/
def atoiDigits : List Char → Int → Option Int
  | [], n => some n
  | ch :: rest, n =>
    if ch.isDigit = true then atoiDigits rest (n * 10 + ((ch.toNat : Int) - 48)) else none

/-- Go `strconv.Atoi`: an optional sign followed by one or more decimal digits; `none` stands
for a returned error (bad syntax, or a value outside the 64-bit range on the slow path taken
by inputs of 19 bytes or more). -/
def atoi (s : List Char) : Option Int :=
  let signed : Option Int :=
    match s with
    | [] => none
    | c :: rest =>
      if c = '-' ∨ c = '+' then
        if rest = [] then none
        else (atoiDigits rest 0).map (fun n => if c = '-' then -n else n)
      else atoiDigits (c :: rest) 0
  if s.length < 19 then signed
  else signed.bind (fun n => if -(2 : Int) ^ 63 ≤ n ∧ n < (2 : Int) ^ 63 then some n else none)

/-- Go `hgtIndexFromName`: the decoded cell and the returned error (`none` is Go `nil`). -/
def hgtIndexFromName (tbl : Char → Char) (name : String) : HgtIndex × Option String :=
  match findStringSubmatch (goToUpper tbl name.toList) with
  | some (m1, m2, m3, m4) =>
    match atoi m2, atoi m4 with
    | some lat, some lon =>
      let lat := if m1 = 'S' then -lat else lat
      let lon := if m3 = 'W' then -lon else lon
      ({ lat := lat, lon := lon }, none)
    | _, _ => ({ lat := 0, lon := 0 }, some "invalid HGT file name")
  | none => ({ lat := 0, lon := 0 }, some "invalid HGT file name")

/-- The exact upper-case form `<N|S><2 digits><E|W><3 digits>.HGT`. -/
def isCore : List Char → Bool
  | [h1, d1, d2, h2, d3, d4, d5, p, x, y, z] =>
    (h1 == 'N' || h1 == 'S') && d1.isDigit && d2.isDigit && (h2 == 'E' || h2 == 'W') &&
      d3.isDigit && d4.isDigit && d5.isDigit && p == '.' && x == 'H' && y == 'G' && z == 'T'
  | _ => false

/-- A name of the form `<N|S><2 digits><E|W><3 digits>.hgt`, letters compared without regard
to case. -/
def isHgtName (s : List Char) : Bool := isCore (s.map Char.toUpper)

/-- The value of a decimal digit. -/
def digitVal (c : Char) : Int := (c.toNat : Int) - 48

/-! ## Geometry of the split and loop invariants -/

/-- Grid row read by row `r` of a tile at vertical position `dy`. -/
def srcRow (N T dy r : Nat) : Nat := N - 1 - dy * (T - 1) - r

/-- Grid column read by column `c` of a tile at horizontal position `dx`. -/
def srcCol (T dx c : Nat) : Nat := dx * (T - 1) + c

/-- The tile `t` is the finished tile at position `(dx, dy)` of the cell `index`:
it carries the global coordinates and every row holds the bytes of its grid row. -/
def TileDone (N S T : Nat) (index : HgtIndex) (data : List Byte) (dx dy : Nat)
    (t : TileRaw) : Prop :=
  t.Index.X = index.lon * (S : Int) + (dx : Int) ∧
  t.Index.Y = index.lat * (S : Int) + (dy : Int) ∧
  t.Data.length = T * T * 2 ∧
  ∀ r, r < T → ∀ j, j < T * 2 →
    t.Data[r * (T * 2) + j]? = data[(srcRow N T dy r * N + dx * (T - 1)) * 2 + j]?

/-- Loop invariant of `splitDem`: the tile set has `S*S` tiles with payloads of full
size, the columns `dx' < kx` are finished, and so are the first `ky` tiles of column `kx`. -/
def SplitInv (N S T : Nat) (index : HgtIndex) (data : List Byte) (kx ky : Nat)
    (tiles : List TileRaw) : Prop :=
  tiles.length = S * S ∧
  (∀ (i : Nat) (t : TileRaw), tiles[i]? = some t → t.Data.length = T * T * 2) ∧
  (∀ dx, dx < kx → ∀ dy, dy < S →
    ∃ t, tiles[dy * S + dx]? = some t ∧ TileDone N S T index data dx dy t) ∧
  (∀ dy, dy < ky → ∃ t, tiles[dy * S + kx]? = some t ∧ TileDone N S T index data kx dy t)

/-- A 5×5 grid whose byte at offset `i` is `i`. -/
def grid5 : List Byte := (List.range 50).map (fun i => Fin.ofNat i)

/-- The string `s` contains a substring of the exact upper-case form. -/
def HasCore (s : List Char) : Prop :=
  ∃ pre core suf, s = pre ++ core ++ suf ∧ isCore core = true

/-! ## `pkg/dem`: the storage writer -/

/-- Modelled from the spec: Go `tileFileIndexRecord`, whose declaration is not in the sources;
an index record (offset, length) locates a compressed tile payload in the data file. -/
structure tileFileIndexRecord where
  offset : Int
  length : Int
deriving DecidableEq, Repr

/-- Modelled from the spec: the first dimension of `tileFileIndex`, whose declaration is not
in the sources; the index is a dense 2-D array sized (360·S) × (180·S). -/
def indexWidth (S : Nat) : Nat := 360 * S

/-- Modelled from the spec: the second dimension of `tileFileIndex`, whose declaration is not
in the sources; the index is a dense 2-D array sized (360·S) × (180·S). -/
def indexHeight (S : Nat) : Nat := 180 * S

/-- Go `tileFileIndex`: a fixed two-dimensional array of records. -/
abbrev tileFileIndex (S : Nat) : Type :=
  Fin (indexWidth S) → Fin (indexHeight S) → tileFileIndexRecord

/-- The data file behind `storage.fData`: its contents and the offset of the descriptor. -/
structure DataFile where
  bytes : List Byte
  pos : Nat
deriving DecidableEq, Repr

/-- A `Write` of `b` at the offset of the descriptor: the bytes replace what was there,
extend the file where they pass its end, and the offset moves past them. -/
def DataFile.write (f : DataFile) (b : List Byte) : DataFile :=
  { bytes := f.bytes.take f.pos ++ List.replicate (f.pos - f.bytes.length) 0 ++ b ++
      f.bytes.drop (f.pos + b.length),
    pos := f.pos + b.length }

/-- Go `StorageWriter` with the fields `fData` and `index` of the embedded `storageAbstract`:
the data file and the index held in memory. -/
structure StorageWriter (S : Nat) where
  fData : DataFile
  index : tileFileIndex S

/-- The writer that `NewWriter` returns: an empty data file and the zero index. -/
def StorageWriter.fresh (S : Nat) : StorageWriter S :=
  { fData := { bytes := [], pos := 0 },
    index := fun _ _ => { offset := 0, length := 0 } }

/-- What the operating system answers to the two file operations of one `PutTile` call:
the error of `Seek`, the error of `Write`, and how many bytes a failed `Write` stored. -/
structure FileAnswers where
  seekErr : Option String
  writeErr : Option String
  written : Nat
deriving DecidableEq, Repr

/-- Both file operations succeed. -/
def FileAnswers.good : FileAnswers := { seekErr := none, writeErr := none, written := 0 }

/-- The assignment `index[x][y] = r` of Go on a fixed array. -/
def tileFileIndex.set {S : Nat} (index : tileFileIndex S) (x : Fin (indexWidth S))
    (y : Fin (indexHeight S)) (r : tileFileIndexRecord) : tileFileIndex S :=
  fun i j => if i = x ∧ j = y then r else index i j

/-- Go `StorageWriter.PutTile`, run under the lock. `compressTile` is the LZ4 codec
behind Go `compressTile`, and `env` holds the answers of the file system. The result is the
returned error (`none` is Go `nil`) with the writer after the call, or the run-time panic. -/
def PutTile (S : Nat) (compressTile : List Byte → List Byte) (env : FileAnswers)
    (storage : StorageWriter S) (tile : TileRaw) :
    Except String (Option String × StorageWriter S) :=
  let compressed := compressTile tile.Data
  match env.seekErr with
  | some e => Except.ok (some e, storage)
  | none =>
    let pos : Int := (storage.fData.pos : Int)
    match env.writeErr with
    | some e =>
      Except.ok (some e,
        { storage with fData := storage.fData.write (compressed.take env.written) })
    | none =>
      let storage1 : StorageWriter S :=
        { storage with fData := storage.fData.write compressed }
      let x : Int := tile.Index.X + 180 * (S : Int)
      let y : Int := tile.Index.Y + 90 * (S : Int)
      if x < 0 ∨ y < 0 ∨ x > (indexWidth S : Int) ∨ y > (indexHeight S : Int) then
        Except.ok (some "tile index out of range", storage1)
      else if h : x.toNat < indexWidth S ∧ y.toNat < indexHeight S then
        Except.ok (none,
          { storage1 with
            index := storage1.index.set ⟨x.toNat, h.1⟩ ⟨y.toNat, h.2⟩
              { offset := pos, length := (compressed.length : Int) } })
      else
        Except.error "index out of range"

/-- A run of `PutTile` calls in the order in which the mutex lets them in: the error each
call returns and the writer after the last one, or the panic that aborts the program. -/
def putSeq (S : Nat) (compressTile : List Byte → List Byte) :
    StorageWriter S → List (FileAnswers × TileRaw) →
      Except String (List (Option String) × StorageWriter S)
  | storage, [] => Except.ok ([], storage)
  | storage, (env, tile) :: rest =>
    match PutTile S compressTile env storage tile with
    | Except.error e => Except.error e
    | Except.ok (err, storage1) =>
      match putSeq S compressTile storage1 rest with
      | Except.error e => Except.error e
      | Except.ok (errs, storage2) => Except.ok (err :: errs, storage2)

/-- The shifted position of the coordinates `p` lies inside the index table. -/
def InRange (S : Nat) (p : TileIndex) : Prop :=
  0 ≤ p.X + 180 * (S : Int) ∧ p.X + 180 * (S : Int) < (indexWidth S : Int) ∧
  0 ≤ p.Y + 90 * (S : Int) ∧ p.Y + 90 * (S : Int) < (indexHeight S : Int)

instance (S : Nat) (p : TileIndex) : Decidable (InRange S p) := by
  unfold InRange
  exact inferInstance

/-- The index entry of the tile coordinates `p`, at the shifted position
`(X + 180*S, Y + 90*S)`; `none` when that position is outside the table. -/
def StorageWriter.lookup {S : Nat} (w : StorageWriter S) (p : TileIndex) :
    Option tileFileIndexRecord :=
  if h : InRange S p then
    some (w.index ⟨(p.X + 180 * (S : Int)).toNat, by unfold InRange at h; omega⟩
      ⟨(p.Y + 90 * (S : Int)).toNat, by unfold InRange at h; omega⟩)
  else none

/-- The size of the compressed payload of a tile. -/
def payloadSize (compressTile : List Byte → List Byte) (t : TileRaw) : Nat :=
  (compressTile t.Data).length

/-- Two byte ranges `[offset, offset+length)` have no byte in common. -/
def Disjoint2 (a b : tileFileIndexRecord) : Prop :=
  a.offset + a.length ≤ b.offset ∨ b.offset + b.length ≤ a.offset

/-! ## `readHgtFile` -/

/-- Go `unicode.ToLower` on one rune: an ASCII letter `A`-`Z` gains 32, any other ASCII rune
is kept, and a rune above ASCII is mapped by the Unicode case tables of the Go library,
which are the parameter `tbl`. -/
def toLowerRune (tbl : Char → Char) (c : Char) : Char :=
  if c.toNat < 128 then c.toLower else tbl c

/-- Go `strings.ToLower` on a string held as its list of runes. -/
def goToLower (tbl : Char → Char) (s : List Char) : List Char :=
  s.map (toLowerRune tbl)

/-- The loop of Go `filepath.Ext`, walking from the end of the path towards its start: it
stops with no extension at a path separator (`/`) and with the suffix at the first dot. -/
def extFrom : List Char → List Char → List Char
  | [], _ => []
  | c :: before, suffix =>
    if c = '/' then []
    else if c = '.' then c :: suffix
    else extFrom before (c :: suffix)

/-- Go `filepath.Ext`: the suffix of the last path element that starts at its final dot. -/
def filepathExt (path : List Char) : List Char :=
  extFrom path.reverse []

/-- What `ioutil.ReadAll` returns for a reader: the bytes, or the error (for gzip also the
error of `gzip.NewReader`). -/
inductive ReadAnswer where
  | data (rawData : List Byte)
  | failed (err : String)
deriving DecidableEq, Repr

/-- The files and the library behind `readHgtFile`: the Unicode lower-case table, the error
of `os.Open` for a path, and what reading the file of a path gives directly, through
`bzip2.NewReader` and through `gzip.NewReader`. -/
structure Files where
  lower : Char → Char
  openErr : String → Option String
  plain : String → ReadAnswer
  bzip2 : String → ReadAnswer
  gzip : String → ReadAnswer

/-- The body of the byte-swap loop of `readHgtFile` (line 62):
`result[i*2], result[i*2+1] = rawData[i*2+1], rawData[i*2]`. -/
def swapStep (rawData : List Byte) (result : List Byte) (i : Nat) :
    Except String (List Byte) :=
  match rawData[i * 2 + 1]?, rawData[i * 2]? with
  | some b1, some b0 =>
    if i * 2 + 1 < result.length then
      Except.ok ((result.set (i * 2) b1).set (i * 2 + 1) b0)
    else Except.error "index out of range"
  | _, _ => Except.error "index out of range"

/-- The byte-swap loop of `readHgtFile` (lines 60-63) on a fresh `HgtRawData`. -/
def swapBytes (N : Nat) (rawData : List Byte) : Except String (List Byte) :=
  (List.range (N * N)).foldlM (swapStep rawData) (List.replicate (N * N * 2) 0)

/-- Lines 53-64 of `readHgtFile`: what becomes of the answer of `ioutil.ReadAll`. The result
is the returned pair (`none` for Go `nil`), or a run-time panic. -/
def readGrid (N : Nat) : ReadAnswer → Except String (Option (List Byte) × Option String)
  | ReadAnswer.failed err => Except.ok (none, some err)
  | ReadAnswer.data rawData =>
    if rawData.length ≠ N * N * 2 then Except.ok (none, some "invalid HGT size")
    else
      match swapBytes N rawData with
      | Except.error e => Except.error e
      | Except.ok result => Except.ok (some result, none)

/-- The extension that `readHgtFile` switches on: `strings.ToLower(filepath.Ext(path))`. -/
def lowerExt (fs : Files) (path : String) : String :=
  String.mk (goToLower fs.lower (filepathExt path.toList))

/-- Go `readHgtFile`: the returned buffer and error (`none` for Go `nil`), or a run-time
panic. -/
def readHgtFile (N : Nat) (fs : Files) (path : String) :
    Except String (Option (List Byte) × Option String) :=
  let ext := lowerExt fs path
  match fs.openErr path with
  | some err => Except.ok (none, some err)
  | none =>
    if ext = ".hgt" then readGrid N (fs.plain path)
    else if ext = ".bz2" then readGrid N (fs.bzip2 path)
    else if ext = ".gz" then readGrid N (fs.gzip path)
    else if ext = ".xml" then Except.ok (none, none)
    else Except.ok (none, some ("unknown hgt file extension: " ++ ext))

/-- The file at `path` has a data-bearing extension and decodes without error to `d`. -/
def DecodesTo (fs : Files) (path : String) (d : List Byte) : Prop :=
  (lowerExt fs path = ".hgt" ∧ fs.plain path = ReadAnswer.data d) ∨
  (lowerExt fs path = ".bz2" ∧ fs.bzip2 path = ReadAnswer.data d) ∨
  (lowerExt fs path = ".gz" ∧ fs.gzip path = ReadAnswer.data d)

/-- A file system in which every file opens and holds the bytes `d`, whatever the decoder. -/
def Files.holding (d : List Byte) : Files :=
  { lower := fun c => c,
    openErr := fun _ => none,
    plain := fun _ => ReadAnswer.data d,
    bzip2 := fun _ => ReadAnswer.data d,
    gzip := fun _ => ReadAnswer.data d }

/-- A stream of eight bytes, the four samples of a 2×2 grid. -/
def raw8 : List Byte := [1, 2, 3, 4, 5, 6, 7, 8]

/-- The value of `hgtIndex` (line 97 of `splitDem`) for the tile `(tileDx, tileDy)` and the
row `row`: the sample offset in the grid at which the row copy starts. -/
def hgtIndexAt (N T tileDx tileDy row : Nat) : Int :=
  ((N : Int) - 1 - (tileDy : Int) * ((T : Int) - 1) - (row : Int)) * (N : Int) +
    (tileDx : Int) * ((T : Int) - 1)

/-- The error of the file operations of one `PutTile` call: that of `Seek`, else that of
`Write`, else none. -/
def FileAnswers.error (env : FileAnswers) : Option String :=
  match env.seekErr with
  | some e => some e
  | none => env.writeErr

/-- The string `u` has an occurrence of the exact upper-case form that starts before
position `k`. -/
def EarlierCore (u : List Char) (k : Nat) : Prop :=
  ∃ pre core rest, u = pre ++ core ++ rest ∧ isCore core = true ∧ pre.length < k

/-! ## `processHgt` -/

/-- What one call of `processHgt` has done when it returns: the returned error (`none` for
Go `nil`), the writer after the call, and the tiles on which `PutTile` was called, in the
order of the calls. -/
structure FileResult (S : Nat) where
  err : Option String
  storage : StorageWriter S
  puts : List TileRaw

/-- The loop of `processHgt` over the tile set (lines 117-121), from the `k`-th put on:
`answers k` is what the file system answers to the `k`-th `PutTile` of the call, and `log`
holds the tiles that were put before. -/
def putLoop (S : Nat) (compressTile : List Byte → List Byte) (answers : Nat → FileAnswers) :
    List TileRaw → Nat → StorageWriter S → List TileRaw → Except String (FileResult S)
  | [], _, storage, log => Except.ok { err := none, storage := storage, puts := log }
  | tile :: rest, k, storage, log =>
    match PutTile S compressTile (answers k) storage tile with
    | Except.error e => Except.error e
    | Except.ok (some err, storage1) =>
      Except.ok { err := some err, storage := storage1, puts := log ++ [tile] }
    | Except.ok (none, storage1) =>
      putLoop S compressTile answers rest (k + 1) storage1 (log ++ [tile])

/-- Go `processHgt`. `tbl` is the Unicode upper-case table behind `hgtIndexFromName`, `fs` the
files behind `readHgtFile`, `join` is Go `path.Join`, and `answers` are the answers of the
file system to the puts of this call. The result is what the call has done, or the run-time
panic that aborts it. -/
def processHgt (N S T : Nat) (tbl : Char → Char) (fs : Files)
    (join : String → String → String) (compressTile : List Byte → List Byte)
    (answers : Nat → FileAnswers) (filename hgtDir : String) (storage : StorageWriter S) :
    Except String (FileResult S) :=
  match readHgtFile N fs (join hgtDir filename) with
  | Except.error e => Except.error e
  | Except.ok (_, some err) => Except.ok { err := some err, storage := storage, puts := [] }
  | Except.ok (none, none) => Except.ok { err := none, storage := storage, puts := [] }
  | Except.ok (some hgt, none) =>
    match hgtIndexFromName tbl filename with
    | (_, some err) => Except.ok { err := some err, storage := storage, puts := [] }
    | (index, none) =>
      match splitDem N S T index hgt with
      | Except.error e => Except.error e
      | Except.ok tiles => putLoop S compressTile answers tiles 0 storage []

/-- The shifted position of the coordinates `p` is inside or on the border of the index table
and has `x = width` or `y = height`: the positions that pass the range check of `PutTile`
and lie outside the table. -/
def OnEdge (S : Nat) (p : TileIndex) : Prop :=
  0 ≤ p.X + 180 * (S : Int) ∧ p.X + 180 * (S : Int) ≤ (indexWidth S : Int) ∧
  0 ≤ p.Y + 90 * (S : Int) ∧ p.Y + 90 * (S : Int) ≤ (indexHeight S : Int) ∧
  (p.X + 180 * (S : Int) = (indexWidth S : Int) ∨ p.Y + 90 * (S : Int) = (indexHeight S : Int))

instance (S : Nat) (p : TileIndex) : Decidable (OnEdge S p) := by
  unfold OnEdge
  exact inferInstance

/-- Go `path.Join` for a clean directory and a plain file name. -/
def joinPlain (hgtDir filename : String) : String := hgtDir ++ "/" ++ filename

/-- File answers in which the `Write` of the put number `k` fails, and of no other put. -/
def failAt (k : Nat) (i : Nat) : FileAnswers :=
  if i = k then { seekErr := none, writeErr := some "disk full", written := 0 }
  else FileAnswers.good

/-- A stream of eighteen bytes, the nine samples of a 3×3 grid; the byte at offset `i` is
`i`. -/
def raw18 : List Byte := (List.range 18).map (fun i => Fin.ofNat i)

/-! # Theorems -/

/-- Invariant rule for a counted loop that may abort: if every iteration below `n`
succeeds and carries the invariant one step on, the whole loop succeeds. -/
theorem foldlM_range_inv {σ : Type} (f : σ → Nat → Except String σ) (P : Nat → σ → Prop)
    (n : Nat) (s0 : σ) (h0 : P 0 s0)
    (hstep : ∀ i s, i < n → P i s → ∃ s', f s i = Except.ok s' ∧ P (i + 1) s') :
    ∃ s', (List.range n).foldlM f s0 = Except.ok s' ∧ P n s' := by
  induction n with
  | zero => exact ⟨s0, rfl, h0⟩
  | succ k ih =>
    obtain ⟨s1, h1, hP1⟩ := ih (fun i s hi hP => hstep i s (Nat.lt_succ_of_lt hi) hP)
    obtain ⟨s2, h2, hP2⟩ := hstep k s1 (Nat.lt_succ_self k) hP1
    refine ⟨s2, ?_, hP2⟩
    rw [List.range_succ, List.foldlM_append, h1]
    simp only [List.foldlM_cons, List.foldlM_nil]
    show (f s1 k >>= fun s => pure s) = Except.ok s2
    rw [h2]
    rfl

theorem goSlice_ok {α : Type} (a : List α) (lo len : Nat) (h : lo + len ≤ a.length) :
    ∃ src, goSlice a (lo : Int) ((lo : Int) + (len : Int)) = Except.ok src ∧
      src.length = len ∧ ∀ k, k < len → src[k]? = a[lo + k]? := by
  refine ⟨(a.drop lo).take len, ?_, ?_, ?_⟩
  · unfold goSlice
    have hc : (0 : Int) ≤ (lo : Int) ∧ (lo : Int) ≤ (lo : Int) + (len : Int) ∧
        (lo : Int) + (len : Int) ≤ (a.length : Int) := by omega
    rw [if_pos hc]
    have e1 : (lo : Int).toNat = lo := by simp
    have e2 : ((lo : Int) + (len : Int)).toNat - (lo : Int).toNat = len := by omega
    rw [e2, e1]
  · rw [List.length_take, List.length_drop]; omega
  · intro k hk
    rw [List.getElem?_take_of_lt hk, List.getElem?_drop]

theorem goCopyAt_fst {α : Type} (a : List α) (off : Nat) (src : List α)
    (h : off + src.length ≤ a.length) : (goCopyAt a off src).1 = src.length := by
  unfold goCopyAt
  simp only
  omega

theorem goCopyAt_length {α : Type} (a : List α) (off : Nat) (src : List α)
    (h : off + src.length ≤ a.length) : (goCopyAt a off src).2.length = a.length := by
  unfold goCopyAt
  simp only [List.length_append, List.length_take, List.length_drop]
  omega

theorem goCopyAt_inside {α : Type} (a : List α) (off : Nat) (src : List α)
    (h : off + src.length ≤ a.length) (k : Nat) (hk : k < src.length) :
    (goCopyAt a off src).2[off + k]? = src[k]? := by
  unfold goCopyAt
  simp only
  have hn : min (a.length - off) src.length = src.length := by omega
  rw [hn, List.append_assoc]
  have hl : (a.take off).length = off := by rw [List.length_take]; omega
  rw [List.getElem?_append_right (by omega), hl]
  have e : off + k - off = k := by omega
  rw [e, List.getElem?_append_left (by rw [List.length_take]; omega),
    List.getElem?_take_of_lt hk]

theorem goCopyAt_outside {α : Type} (a : List α) (off : Nat) (src : List α)
    (h : off + src.length ≤ a.length) (i : Nat) (hi : i < off ∨ off + src.length ≤ i) :
    (goCopyAt a off src).2[i]? = a[i]? := by
  unfold goCopyAt
  simp only
  have hn : min (a.length - off) src.length = src.length := by omega
  rw [hn, List.append_assoc]
  have hl : (a.take off).length = off := by rw [List.length_take]; omega
  rcases hi with hi | hi
  · rw [List.getElem?_append_left (by omega), List.getElem?_take_of_lt hi]
  · rw [List.getElem?_append_right (by omega), hl]
    have hl2 : (src.take src.length).length = src.length := by rw [List.length_take]; omega
    rw [List.getElem?_append_right (by omega), hl2, List.getElem?_drop]
    congr 1
    omega

theorem geo_bound (N S T : Nat) (h : ((T : Int) - 1) * (S : Int) ≤ (N : Int) - 1)
    (d r : Nat) (hd : d < S) (hr : r < T) :
    d * (T - 1) + r + 1 ≤ N ∧ d * (T - 1) + T ≤ N := by
  obtain ⟨t, rfl⟩ : ∃ t, T = t + 1 := ⟨T - 1, by omega⟩
  have h1 : (t : Int) * (S : Int) ≤ (N : Int) - 1 := by simpa using h
  have h2 : d * t + t ≤ t * S := by
    have h3 : (d + 1) * t ≤ S * t := Nat.mul_le_mul_right t hd
    calc d * t + t = (d + 1) * t := by ring
      _ ≤ S * t := h3
      _ = t * S := by ring
  have h4 : t * S + 1 ≤ N := by
    have h5 : ((t * S : Nat) : Int) ≤ (N : Int) - 1 := by push_cast; exact h1
    omega
  simp only [Nat.add_sub_cancel]
  omega

theorem srcRow_cast (N S T : Nat) (h : ((T : Int) - 1) * (S : Int) ≤ (N : Int) - 1)
    (dy r : Nat) (hd : dy < S) (hr : r < T) :
    ((srcRow N T dy r : Nat) : Int) = (N : Int) - 1 - (dy : Int) * ((T : Int) - 1) - (r : Int) := by
  have hb := (geo_bound N S T h dy r hd hr).1
  obtain ⟨t, rfl⟩ : ∃ t, T = t + 1 := ⟨T - 1, by omega⟩
  unfold srcRow
  simp only [Nat.add_sub_cancel] at hb ⊢
  have e : ((t + 1 : Nat) : Int) - 1 = (t : Int) := by push_cast; ring
  rw [e]
  have e2 : ((dy * t : Nat) : Int) = (dy : Int) * (t : Int) := by push_cast; ring
  omega

theorem splitRow_ok (N S T : Nat) (h : ((T : Int) - 1) * (S : Int) ≤ (N : Int) - 1)
    (data : List Byte) (hlen : data.length = N * N * 2)
    (dx dy : Nat) (hdx : dx < S) (hdy : dy < S)
    (td : List Byte) (htd : td.length = T * T * 2) (row : Nat) (hrow : row < T) :
    ∃ td', splitRow N T data dx dy td row = Except.ok td' ∧ td'.length = T * T * 2 ∧
      (∀ j, j < T * 2 →
        td'[row * (T * 2) + j]? = data[(srcRow N T dy row * N + dx * (T - 1)) * 2 + j]?) ∧
      (∀ i, (i < row * (T * 2) ∨ row * (T * 2) + T * 2 ≤ i) → td'[i]? = td[i]?) := by
  have hbr := (geo_bound N S T h dy row hdy hrow).1
  have hbc := (geo_bound N S T h dx row hdx hrow).2
  have hrc := srcRow_cast N S T h dy row hdy hrow
  have hsr : srcRow N T dy row + 1 ≤ N := by unfold srcRow; omega
  -- the source range lies inside the grid
  have hsrc : (srcRow N T dy row * N + dx * (T - 1)) * 2 + T * 2 ≤ data.length := by
    have h1 : (srcRow N T dy row + 1) * N ≤ N * N := Nat.mul_le_mul_right N hsr
    have h2 : (srcRow N T dy row + 1) * N = srcRow N T dy row * N + N := by ring
    rw [hlen]; omega
  -- the destination range lies inside the tile
  have hdst : row * (T * 2) + T * 2 ≤ td.length := by
    have h1 : (row + 1) * T ≤ T * T := Nat.mul_le_mul_right T hrow
    have h2 : (row + 1) * T = row * T + T := by ring
    have h3 : row * (T * 2) = row * T * 2 := by ring
    rw [htd]; omega
  obtain ⟨src, hs, hslen, hsget⟩ :=
    goSlice_ok data ((srcRow N T dy row * N + dx * (T - 1)) * 2) (T * 2) hsrc
  have elo : ((N : Int) - 1 - (dy : Int) * ((T : Int) - 1) - (row : Int)) * (N : Int) +
      (dx : Int) * ((T : Int) - 1) = ((srcRow N T dy row * N + dx * (T - 1) : Nat) : Int) := by
    rw [← hrc]
    have e : ((T - 1 : Nat) : Int) = (T : Int) - 1 := by omega
    push_cast
    rw [e]
  have eoff : (row : Int) * (T : Int) * 2 = ((row * (T * 2) : Nat) : Int) := by
    push_cast; ring
  refine ⟨(goCopyAt td (row * (T * 2)) src).2, ?_, ?_, ?_, ?_⟩
  · unfold splitRow
    simp only
    rw [elo, eoff]
    have c1 : (0 : Int) ≤ ((row * (T * 2) : Nat) : Int) ∧
        ((row * (T * 2) : Nat) : Int) ≤ (td.length : Int) := by omega
    rw [if_pos c1]
    have e3 : ((srcRow N T dy row * N + dx * (T - 1) : Nat) : Int) * 2 =
        (((srcRow N T dy row * N + dx * (T - 1)) * 2 : Nat) : Int) := by push_cast; ring
    have e4 : (((srcRow N T dy row * N + dx * (T - 1) : Nat) : Int) + (T : Int)) * 2 =
        (((srcRow N T dy row * N + dx * (T - 1)) * 2 : Nat) : Int) + ((T * 2 : Nat) : Int) := by
      push_cast; ring
    rw [e3, e4, hs]
    simp only [Int.toNat_ofNat]
    have c2 : (goCopyAt td (row * (T * 2)) src).1 = T * 2 := by
      rw [goCopyAt_fst td _ src (by omega), hslen]
    rw [if_neg (by rw [c2]; simp)]
  · rw [goCopyAt_length td _ src (by omega), htd]
  · intro j hj
    rw [goCopyAt_inside td _ src (by omega) j (by omega), hsget j hj]
  · intro i hi
    exact goCopyAt_outside td _ src (by omega) i (by omega)

theorem pos_inj (S dx dy dx' dy' : Nat) (hdx : dx < S) (hdx' : dx' < S)
    (h : dy' * S + dx' = dy * S + dx) : dx' = dx ∧ dy' = dy := by
  have h1 : (dy' * S + dx') % S = (dy * S + dx) % S := by rw [h]
  have h2 : (dy' * S + dx') / S = (dy * S + dx) / S := by rw [h]
  have hS : 0 < S := by omega
  rw [Nat.mul_comm dy' S, Nat.mul_comm dy S] at h1 h2
  rw [Nat.mul_add_mod, Nat.mul_add_mod, Nat.mod_eq_of_lt hdx', Nat.mod_eq_of_lt hdx] at h1
  rw [Nat.mul_add_div hS, Nat.mul_add_div hS, Nat.div_eq_of_lt hdx', Nat.div_eq_of_lt hdx] at h2
  exact ⟨h1, by simpa using h2⟩

theorem pos_lt (S dx dy : Nat) (hdx : dx < S) (hdy : dy < S) : dy * S + dx < S * S := by
  have h1 : (dy + 1) * S ≤ S * S := Nat.mul_le_mul_right S hdy
  have h2 : (dy + 1) * S = dy * S + S := by ring
  omega

theorem splitRows_ok (N S T : Nat) (h : ((T : Int) - 1) * (S : Int) ≤ (N : Int) - 1)
    (data : List Byte) (hlen : data.length = N * N * 2)
    (dx dy : Nat) (hdx : dx < S) (hdy : dy < S)
    (td : List Byte) (htd : td.length = T * T * 2) :
    ∃ td', (List.range T).foldlM (splitRow N T data dx dy) td = Except.ok td' ∧
      td'.length = T * T * 2 ∧
      ∀ r, r < T → ∀ j, j < T * 2 →
        td'[r * (T * 2) + j]? = data[(srcRow N T dy r * N + dx * (T - 1)) * 2 + j]? := by
  have key := foldlM_range_inv (splitRow N T data dx dy)
    (fun k d => d.length = T * T * 2 ∧ ∀ r, r < k → ∀ j, j < T * 2 →
      d[r * (T * 2) + j]? = data[(srcRow N T dy r * N + dx * (T - 1)) * 2 + j]?)
    T td ⟨htd, fun r hr => absurd hr (Nat.not_lt_zero r)⟩
    (by
      intro k d hk hP
      obtain ⟨hdl, hrows⟩ := hP
      obtain ⟨d', hd', hl', hin, hout⟩ := splitRow_ok N S T h data hlen dx dy hdx hdy d hdl k hk
      refine ⟨d', hd', hl', ?_⟩
      intro r hr j hj
      rcases Nat.lt_succ_iff_lt_or_eq.mp hr with hlt | heq
      · have h1 : (r + 1) * (T * 2) ≤ k * (T * 2) := Nat.mul_le_mul_right (T * 2) hlt
        have h2 : (r + 1) * (T * 2) = r * (T * 2) + T * 2 := by ring
        rw [hout (r * (T * 2) + j) (Or.inl (by omega))]
        exact hrows r hlt j hj
      · subst heq
        exact hin j hj)
  obtain ⟨td', h1, h2, h3⟩ := key
  exact ⟨td', h1, h2, h3⟩

theorem splitTile_ok (N S T : Nat) (h : ((T : Int) - 1) * (S : Int) ≤ (N : Int) - 1)
    (index : HgtIndex) (data : List Byte) (hlen : data.length = N * N * 2)
    (dx dy : Nat) (hdx : dx < S) (hdy : dy < S)
    (tiles : List TileRaw) (htl : tiles.length = S * S)
    (htd : ∀ (i : Nat) (t : TileRaw), tiles[i]? = some t → t.Data.length = T * T * 2) :
    ∃ tiles' t, splitTile N S T index data dx tiles dy = Except.ok tiles' ∧
      tiles'.length = S * S ∧ tiles'[dy * S + dx]? = some t ∧
      TileDone N S T index data dx dy t ∧
      ∀ i, i ≠ dy * S + dx → tiles'[i]? = tiles[i]? := by
  have hpos : dy * S + dx < tiles.length := by rw [htl]; exact pos_lt S dx dy hdx hdy
  obtain ⟨t0, ht0⟩ : ∃ t0, tiles[dy * S + dx]? = some t0 :=
    ⟨tiles[dy * S + dx], List.getElem?_eq_getElem hpos⟩
  obtain ⟨d, hd, hdl, hrows⟩ :=
    splitRows_ok N S T h data hlen dx dy hdx hdy t0.Data (htd _ t0 ht0)
  refine ⟨tiles.set (dy * S + dx)
    { Index := { X := index.lon * (S : Int) + (dx : Int), Y := index.lat * (S : Int) + (dy : Int) },
      Data := d },
    { Index := { X := index.lon * (S : Int) + (dx : Int), Y := index.lat * (S : Int) + (dy : Int) },
      Data := d }, ?_, ?_, ?_, ⟨rfl, rfl, hdl, hrows⟩, ?_⟩
  · unfold splitTile
    simp only [ht0, hd]
  · rw [List.length_set, htl]
  · rw [List.getElem?_set, if_pos rfl, if_pos hpos]
  · intro i hi
    rw [List.getElem?_set, if_neg (fun e => hi e.symm)]

theorem splitInv_step (N S T : Nat) (h : ((T : Int) - 1) * (S : Int) ≤ (N : Int) - 1)
    (index : HgtIndex) (data : List Byte) (hlen : data.length = N * N * 2)
    (dx dy : Nat) (hdx : dx < S) (hdy : dy < S) (tiles : List TileRaw)
    (hinv : SplitInv N S T index data dx dy tiles) :
    ∃ tiles', splitTile N S T index data dx tiles dy = Except.ok tiles' ∧
      SplitInv N S T index data dx (dy + 1) tiles' := by
  obtain ⟨hl, hall, hcols, hcur⟩ := hinv
  obtain ⟨tiles', t, hrun, hl', hget, hdone, hframe⟩ :=
    splitTile_ok N S T h index data hlen dx dy hdx hdy tiles hl hall
  refine ⟨tiles', hrun, hl', ?_, ?_, ?_⟩
  · intro i u hu
    by_cases hi : i = dy * S + dx
    · subst hi
      rw [hget] at hu
      cases hu
      exact hdone.2.2.1
    · rw [hframe i hi] at hu
      exact hall i u hu
  · intro dx' hdx' dy' hdy'
    have hne : dy' * S + dx' ≠ dy * S + dx := by
      intro e
      have := (pos_inj S dx dy dx' dy' hdx (by omega) e).1
      omega
    rw [hframe _ hne]
    exact hcols dx' hdx' dy' hdy'
  · intro dy' hdy'
    rcases Nat.lt_succ_iff_lt_or_eq.mp hdy' with hlt | heq
    · have hne : dy' * S + dx ≠ dy * S + dx := by
        intro e
        have := (pos_inj S dx dy dx dy' hdx hdx e).2
        omega
      rw [hframe _ hne]
      exact hcur dy' hlt
    · subst heq
      exact ⟨t, hget, hdone⟩

/-- What `splitDem` computes when the tiles fit the grid: it does not panic, it returns
`S*S` tiles, and the tile at position `dy*S+dx` is the finished tile `(dx, dy)`. -/
theorem splitDem_spec (N S T : Nat) (h : ((T : Int) - 1) * (S : Int) ≤ (N : Int) - 1)
    (index : HgtIndex) (data : List Byte) (hlen : data.length = N * N * 2) :
    ∃ tiles, splitDem N S T index data = Except.ok tiles ∧ tiles.length = S * S ∧
      ∀ dx, dx < S → ∀ dy, dy < S →
        ∃ t, tiles[dy * S + dx]? = some t ∧ TileDone N S T index data dx dy t := by
  have key := foldlM_range_inv
    (fun tiles tileDx => (List.range S).foldlM (splitTile N S T index data tileDx) tiles)
    (fun kx tiles => SplitInv N S T index data kx 0 tiles) S
    (List.replicate (S * S) (TileRaw.zero T))
    (by
      refine ⟨List.length_replicate _ _, ?_, ?_, ?_⟩
      · intro i t ht
        rw [List.getElem?_replicate] at ht
        split at ht
        · cases ht
          simp [TileRaw.zero]
        · cases ht
      · intro dx hdx
        exact absurd hdx (Nat.not_lt_zero dx)
      · intro dy hdy
        exact absurd hdy (Nat.not_lt_zero dy))
    (by
      intro kx tiles hkx hinv
      obtain ⟨tiles', hrun, hinv'⟩ := foldlM_range_inv (splitTile N S T index data kx)
        (fun ky tl => SplitInv N S T index data kx ky tl) S tiles hinv
        (fun ky tl hky hI => splitInv_step N S T h index data hlen kx ky hkx hky tl hI)
      refine ⟨tiles', hrun, hinv'.1, hinv'.2.1, ?_, ?_⟩
      · intro dx hdx dy hdy
        rcases Nat.lt_succ_iff_lt_or_eq.mp hdx with hlt | heq
        · exact hinv'.2.2.1 dx hlt dy hdy
        · subst heq
          exact hinv'.2.2.2 dy hdy
      · intro dy hdy
        exact absurd hdy (Nat.not_lt_zero dy))
  obtain ⟨tiles, hrun, hinv⟩ := key
  exact ⟨tiles, hrun, hinv.1, hinv.2.2.1⟩

/-- The model of `splitDem` run on the 5×5 grid `grid5` for the cell `(lat = 45, lon = 7)` with
2×2 tiles of 3×3 samples: tile rows run from the southern grid rows northwards. -/
theorem splitDem_grid5 :
    splitDem 5 2 3 ⟨45, 7⟩ grid5 = Except.ok
      [{ Index := { X := 14, Y := 90 },
         Data := [40, 41, 42, 43, 44, 45, 30, 31, 32, 33, 34, 35, 20, 21, 22, 23, 24, 25] },
       { Index := { X := 15, Y := 90 },
         Data := [44, 45, 46, 47, 48, 49, 34, 35, 36, 37, 38, 39, 24, 25, 26, 27, 28, 29] },
       { Index := { X := 14, Y := 91 },
         Data := [20, 21, 22, 23, 24, 25, 10, 11, 12, 13, 14, 15, 0, 1, 2, 3, 4, 5] },
       { Index := { X := 15, Y := 91 },
         Data := [24, 25, 26, 27, 28, 29, 14, 15, 16, 17, 18, 19, 4, 5, 6, 7, 8, 9] }] := by
  rfl

/-- A tile one sample too wide for the grid makes `splitDem` panic on its first slice. -/
theorem splitDem_grid5_too_wide :
    splitDem 5 2 4 ⟨45, 7⟩ grid5 = Except.error "slice bounds out of range" := by
  rfl

/-- Byte `b` of the sample at row `r`, column `c` of a finished tile is byte `b` of the
grid sample at row `srcRow N T dy r`, column `srcCol T dx c`, and both bytes exist. -/
theorem tileDone_sample (N S T : Nat) (h : ((T : Int) - 1) * (S : Int) ≤ (N : Int) - 1)
    (index : HgtIndex) (data : List Byte) (hlen : data.length = N * N * 2)
    (dx dy : Nat) (hdx : dx < S) (hdy : dy < S) (t : TileRaw)
    (ht : TileDone N S T index data dx dy t)
    (r c b : Nat) (hr : r < T) (hc : c < T) (hb : b < 2) :
    srcRow N T dy r < N ∧ srcCol T dx c < N ∧
    ∃ v, t.Data[(r * T + c) * 2 + b]? = some v ∧
      data[(srcRow N T dy r * N + srcCol T dx c) * 2 + b]? = some v := by
  have hbr := (geo_bound N S T h dy r hdy hr).1
  have hbc := (geo_bound N S T h dx c hdx hc).1
  have hsr : srcRow N T dy r < N := by unfold srcRow; omega
  have hsc : srcCol T dx c < N := by unfold srcCol; omega
  have hin : (srcRow N T dy r * N + srcCol T dx c) * 2 + b < data.length := by
    have h1 : (srcRow N T dy r + 1) * N ≤ N * N := Nat.mul_le_mul_right N hsr
    have h2 : (srcRow N T dy r + 1) * N = srcRow N T dy r * N + N := by ring
    rw [hlen]; omega
  refine ⟨hsr, hsc, data[(srcRow N T dy r * N + srcCol T dx c) * 2 + b], ?_,
    List.getElem?_eq_getElem hin⟩
  have e1 : (r * T + c) * 2 + b = r * (T * 2) + (c * 2 + b) := by ring
  have e2 : (srcRow N T dy r * N + srcCol T dx c) * 2 + b =
      (srcRow N T dy r * N + dx * (T - 1)) * 2 + (c * 2 + b) := by unfold srcCol; ring
  rw [e1, ht.2.2.2 r hr (c * 2 + b) (by omega), ← e2]
  exact List.getElem?_eq_getElem hin

theorem srcCol_cast (T dx c : Nat) (hc : c < T) :
    ((srcCol T dx c : Nat) : Int) = (dx : Int) * ((T : Int) - 1) + (c : Int) := by
  unfold srcCol
  have e : ((T - 1 : Nat) : Int) = (T : Int) - 1 := by omega
  push_cast
  rw [e]

/-- C1: sample placement of `splitDem`. When the tiles fit the grid, `(T-1)*S ≤ N-1`, then for
every cell, every grid buffer of `N*N*2` bytes, every `dx, dy` in `[0,S)` and every `r, c` in
`[0,T)`, `splitDem` returns, and both bytes of the sample at row `r`, column `c` of the tile at
position `dy*S+dx` are the bytes of the grid sample at row `N-1-dy*(T-1)-r` and column
`dx*(T-1)+c`. -/
theorem splitDem_sample_placement (N S T : Nat)
    (hgeo : ((T : Int) - 1) * (S : Int) ≤ (N : Int) - 1)
    (index : HgtIndex) (data : List Byte) (hlen : data.length = N * N * 2)
    (dx dy r c : Nat) (hdx : dx < S) (hdy : dy < S) (hr : r < T) (hc : c < T) :
    ∃ (tiles : List TileRaw) (tile : TileRaw) (gi gj : Nat) (b0 b1 : Byte),
      splitDem N S T index data = Except.ok tiles ∧
      tiles[dy * S + dx]? = some tile ∧
      (gi : Int) = (N : Int) - 1 - (dy : Int) * ((T : Int) - 1) - (r : Int) ∧
      (gj : Int) = (dx : Int) * ((T : Int) - 1) + (c : Int) ∧
      gi < N ∧ gj < N ∧
      tile.Data[(r * T + c) * 2]? = some b0 ∧ data[(gi * N + gj) * 2]? = some b0 ∧
      tile.Data[(r * T + c) * 2 + 1]? = some b1 ∧ data[(gi * N + gj) * 2 + 1]? = some b1 := by
  obtain ⟨tiles, hrun, -, hall⟩ := splitDem_spec N S T hgeo index data hlen
  obtain ⟨tile, hget, hdone⟩ := hall dx hdx dy hdy
  obtain ⟨hi, hj, b0, hb0, hg0⟩ :=
    tileDone_sample N S T hgeo index data hlen dx dy hdx hdy tile hdone r c 0 hr hc (by omega)
  obtain ⟨-, -, b1, hb1, hg1⟩ :=
    tileDone_sample N S T hgeo index data hlen dx dy hdx hdy tile hdone r c 1 hr hc (by omega)
  exact ⟨tiles, tile, srcRow N T dy r, srcCol T dx c, b0, b1, hrun, hget,
    srcRow_cast N S T hgeo dy r hdy hr, srcCol_cast T dx c hc, hi, hj, hb0, hg0, hb1, hg1⟩

/-- C1 at a 5×5 grid split into 2×2 tiles of 3×3 samples. -/
theorem splitDem_sample_placement_witness :
    ∃ (tiles : List TileRaw) (tile : TileRaw) (gi gj : Nat) (b0 b1 : Byte),
      splitDem 5 2 3 ⟨45, 7⟩ grid5 = Except.ok tiles ∧
      tiles[1 * 2 + 1]? = some tile ∧
      (gi : Int) = ((5 : Nat) : Int) - 1 - ((1 : Nat) : Int) * (((3 : Nat) : Int) - 1) - ((2 : Nat) : Int) ∧
      (gj : Int) = ((1 : Nat) : Int) * (((3 : Nat) : Int) - 1) + ((0 : Nat) : Int) ∧
      gi < 5 ∧ gj < 5 ∧
      tile.Data[(2 * 3 + 0) * 2]? = some b0 ∧ grid5[(gi * 5 + gj) * 2]? = some b0 ∧
      tile.Data[(2 * 3 + 0) * 2 + 1]? = some b1 ∧ grid5[(gi * 5 + gj) * 2 + 1]? = some b1 :=
  splitDem_sample_placement 5 2 3 (by decide) ⟨45, 7⟩ grid5 (by decide) 1 1 2 0
    (by decide) (by decide) (by decide) (by decide)

/-- C3: shared edges. When the tiles fit the grid, then for every cell, grid and `dx, dy` in
`[0,S)`, `splitDem` returns, and if `dx+1 < S` column `T-1` of tile `(dx,dy)` equals column `0`
of tile `(dx+1,dy)` byte for byte in every row, and if `dy+1 < S` row `T-1` of tile `(dx,dy)`
equals row `0` of tile `(dx,dy+1)` byte for byte. -/
theorem splitDem_shared_edges (N S T : Nat)
    (hgeo : ((T : Int) - 1) * (S : Int) ≤ (N : Int) - 1)
    (index : HgtIndex) (data : List Byte) (hlen : data.length = N * N * 2)
    (dx dy : Nat) (hdx : dx < S) (hdy : dy < S) :
    ∃ (tiles : List TileRaw) (tile : TileRaw),
      splitDem N S T index data = Except.ok tiles ∧
      tiles[dy * S + dx]? = some tile ∧
      (dx + 1 < S → ∃ right, tiles[dy * S + (dx + 1)]? = some right ∧
        ∀ r b, r < T → b < 2 → ∃ v, tile.Data[(r * T + (T - 1)) * 2 + b]? = some v ∧
          right.Data[(r * T + 0) * 2 + b]? = some v) ∧
      (dy + 1 < S → ∃ below, tiles[(dy + 1) * S + dx]? = some below ∧
        ∀ c b, c < T → b < 2 → ∃ v, tile.Data[((T - 1) * T + c) * 2 + b]? = some v ∧
          below.Data[(0 * T + c) * 2 + b]? = some v) := by
  obtain ⟨tiles, hrun, -, hall⟩ := splitDem_spec N S T hgeo index data hlen
  obtain ⟨tile, hget, hdone⟩ := hall dx hdx dy hdy
  refine ⟨tiles, tile, hrun, hget, ?_, ?_⟩
  · intro hx
    obtain ⟨right, hgr, hdr⟩ := hall (dx + 1) hx dy hdy
    refine ⟨right, hgr, ?_⟩
    intro r b hr hb
    obtain ⟨-, -, v, hv, hg⟩ := tileDone_sample N S T hgeo index data hlen dx dy hdx hdy
      tile hdone r (T - 1) b hr (by omega) hb
    obtain ⟨-, -, w, hw, hg'⟩ := tileDone_sample N S T hgeo index data hlen (dx + 1) dy hx hdy
      right hdr r 0 b hr (by omega) hb
    have hcol : srcCol T (dx + 1) 0 = srcCol T dx (T - 1) := by unfold srcCol; ring
    rw [hcol, hg] at hg'
    cases hg'
    exact ⟨v, hv, hw⟩
  · intro hy
    obtain ⟨below, hgb, hdb⟩ := hall dx hdx (dy + 1) hy
    refine ⟨below, hgb, ?_⟩
    intro c b hc hb
    obtain ⟨-, -, v, hv, hg⟩ := tileDone_sample N S T hgeo index data hlen dx dy hdx hdy
      tile hdone (T - 1) c b (by omega) hc hb
    obtain ⟨-, -, w, hw, hg'⟩ := tileDone_sample N S T hgeo index data hlen dx (dy + 1) hdx hy
      below hdb 0 c b (by omega) hc hb
    have hrow : srcRow N T (dy + 1) 0 = srcRow N T dy (T - 1) := by
      unfold srcRow
      have e : (dy + 1) * (T - 1) = dy * (T - 1) + (T - 1) := by ring
      rw [e]; omega
    rw [hrow, hg] at hg'
    cases hg'
    exact ⟨v, hv, hw⟩

/-- C3 at the lower left tile of a 5×5 grid split into 2×2 tiles of 3×3 samples. -/
theorem splitDem_shared_edges_witness :
    ∃ (tiles : List TileRaw) (tile : TileRaw),
      splitDem 5 2 3 ⟨45, 7⟩ grid5 = Except.ok tiles ∧
      tiles[0 * 2 + 0]? = some tile ∧
      (0 + 1 < 2 → ∃ right, tiles[0 * 2 + (0 + 1)]? = some right ∧
        ∀ r b, r < 3 → b < 2 → ∃ v, tile.Data[(r * 3 + (3 - 1)) * 2 + b]? = some v ∧
          right.Data[(r * 3 + 0) * 2 + b]? = some v) ∧
      (0 + 1 < 2 → ∃ below, tiles[(0 + 1) * 2 + 0]? = some below ∧
        ∀ c b, c < 3 → b < 2 → ∃ v, tile.Data[((3 - 1) * 3 + c) * 2 + b]? = some v ∧
          below.Data[(0 * 3 + c) * 2 + b]? = some v) :=
  splitDem_shared_edges 5 2 3 (by decide) ⟨45, 7⟩ grid5 (by decide) 0 0 (by decide) (by decide)

/-- Every offset `m ≤ t*S` splits as `d*t + r` with `d < S` and `r ≤ t`. -/
theorem cover_split (S t m : Nat) (hS : 0 < S) (hm : m ≤ t * S) :
    ∃ d r, d < S ∧ r ≤ t ∧ d * t + r = m := by
  rcases Nat.eq_zero_or_pos t with h0 | hpos
  · subst h0
    exact ⟨0, 0, hS, Nat.le_refl 0, by omega⟩
  · by_cases hlt : m < t * S
    · refine ⟨m / t, m % t, ?_, Nat.le_of_lt (Nat.mod_lt m hpos), ?_⟩
      · rw [Nat.div_lt_iff_lt_mul hpos, Nat.mul_comm]; exact hlt
      · rw [Nat.mul_comm]; exact Nat.div_add_mod m t
    · refine ⟨S - 1, t, by omega, Nat.le_refl t, ?_⟩
      have e : (S - 1) * t + t = t * S := by
        obtain ⟨s, rfl⟩ : ∃ s, S = s + 1 := ⟨S - 1, by omega⟩
        simp only [Nat.add_sub_cancel]; ring
      omega

/-- When the tiles cover the grid exactly, every grid position is read by some tile. -/
theorem cover_grid (N S T : Nat) (hS : 0 < S)
    (hgeo : ((T : Int) - 1) * (S : Int) = (N : Int) - 1) (i j : Nat) (hi : i < N) (hj : j < N) :
    ∃ dx dy r c, dx < S ∧ dy < S ∧ r < T ∧ c < T ∧
      srcRow N T dy r = i ∧ srcCol T dx c = j := by
  have hT : 0 < T := by
    by_contra hT0
    have hT0' : T = 0 := by omega
    subst hT0'
    have h1 : (0 : Int) ≤ (N : Int) - 1 := by omega
    have h2 : ((0 : Nat) : Int) - 1 = -1 := by simp
    rw [h2] at hgeo
    omega
  obtain ⟨t, rfl⟩ : ∃ t, T = t + 1 := ⟨T - 1, by omega⟩
  have h1 : (t : Int) * (S : Int) = (N : Int) - 1 := by simpa using hgeo
  have h2 : t * S = N - 1 := by
    have h3 : ((t * S : Nat) : Int) = (N : Int) - 1 := by push_cast; exact h1
    omega
  obtain ⟨dy, r, hdy, hr, hyr⟩ := cover_split S t (N - 1 - i) hS (by omega)
  obtain ⟨dx, c, hdx, hc, hxc⟩ := cover_split S t j hS (by omega)
  refine ⟨dx, dy, r, c, hdx, hdy, by omega, by omega, ?_, ?_⟩
  · unfold srcRow
    simp only [Nat.add_sub_cancel]
    omega
  · unfold srcCol
    simp only [Nat.add_sub_cancel]
    omega

/-- C2: split/reassemble round trip. When the tiles cover the grid exactly, `(T-1)*S = N-1`
(with `S` positive), then for every grid buffer of `N*N*2` bytes `splitDem` returns, every grid
sample (row `i`, column `j` in `[0,N)`) occurs with both bytes in one of the tiles at the
position given by the splitting formula, and `splitDem` is injective in the grid: a second
grid with the same tile set for the same cell is equal byte for byte. -/
theorem splitDem_round_trip (N S T : Nat) (hS : 0 < S)
    (hgeo : ((T : Int) - 1) * (S : Int) = (N : Int) - 1)
    (index : HgtIndex) (data : List Byte) (hlen : data.length = N * N * 2) :
    ∃ tiles : List TileRaw, splitDem N S T index data = Except.ok tiles ∧
      (∀ i j : Nat, i < N → j < N →
        ∃ (dx dy r c : Nat) (tile : TileRaw) (b0 b1 : Byte),
          dx < S ∧ dy < S ∧ r < T ∧ c < T ∧
          (i : Int) = (N : Int) - 1 - (dy : Int) * ((T : Int) - 1) - (r : Int) ∧
          (j : Int) = (dx : Int) * ((T : Int) - 1) + (c : Int) ∧
          tiles[dy * S + dx]? = some tile ∧
          tile.Data[(r * T + c) * 2]? = some b0 ∧ data[(i * N + j) * 2]? = some b0 ∧
          tile.Data[(r * T + c) * 2 + 1]? = some b1 ∧ data[(i * N + j) * 2 + 1]? = some b1) ∧
      (∀ data' : List Byte, data'.length = N * N * 2 →
        splitDem N S T index data' = Except.ok tiles → data' = data) := by
  have hle : ((T : Int) - 1) * (S : Int) ≤ (N : Int) - 1 := le_of_eq hgeo
  obtain ⟨tiles, hrun, -, hall⟩ := splitDem_spec N S T hle index data hlen
  refine ⟨tiles, hrun, ?_, ?_⟩
  · intro i j hi hj
    obtain ⟨dx, dy, r, c, hdx, hdy, hr, hc, hrow, hcol⟩ := cover_grid N S T hS hgeo i j hi hj
    obtain ⟨tile, hget, hdone⟩ := hall dx hdx dy hdy
    obtain ⟨-, -, b0, hb0, hg0⟩ :=
      tileDone_sample N S T hle index data hlen dx dy hdx hdy tile hdone r c 0 hr hc (by omega)
    obtain ⟨-, -, b1, hb1, hg1⟩ :=
      tileDone_sample N S T hle index data hlen dx dy hdx hdy tile hdone r c 1 hr hc (by omega)
    rw [hrow, hcol] at hg0 hg1
    refine ⟨dx, dy, r, c, tile, b0, b1, hdx, hdy, hr, hc, ?_, ?_, hget, hb0, hg0, hb1, hg1⟩
    · rw [← hrow]; exact srcRow_cast N S T hle dy r hdy hr
    · rw [← hcol]; exact srcCol_cast T dx c hc
  · intro data' hlen' hrun'
    obtain ⟨tiles', hrun2, -, hall'⟩ := splitDem_spec N S T hle index data' hlen'
    rw [hrun'] at hrun2
    cases hrun2
    apply List.ext_getElem?
    intro k
    by_cases hk : k < N * N * 2
    · -- byte `k` is byte `b` of the sample at row `i`, column `j`
      have hN : 0 < N := by
        rcases Nat.eq_zero_or_pos N with h0 | h0
        · subst h0; omega
        · exact h0
      have hk2 : k / 2 < N * N := by omega
      have hi : k / 2 / N < N := by
        rw [Nat.div_lt_iff_lt_mul hN]; exact hk2
      have hj : k / 2 % N < N := Nat.mod_lt _ hN
      have hb : k % 2 < 2 := Nat.mod_lt _ (by omega)
      have hk' : k = (k / 2 / N * N + k / 2 % N) * 2 + k % 2 := by
        have e1 : N * (k / 2 / N) + k / 2 % N = k / 2 := Nat.div_add_mod (k / 2) N
        have e2 : k / 2 / N * N = N * (k / 2 / N) := Nat.mul_comm _ _
        omega
      obtain ⟨dx, dy, r, c, hdx, hdy, hr, hc, hrow, hcol⟩ :=
        cover_grid N S T hS hgeo (k / 2 / N) (k / 2 % N) hi hj
      obtain ⟨tile, hget, hdone⟩ := hall dx hdx dy hdy
      obtain ⟨tile', hget', hdone'⟩ := hall' dx hdx dy hdy
      rw [hget] at hget'
      cases hget'
      obtain ⟨-, -, v, hv, hg⟩ := tileDone_sample N S T hle index data hlen dx dy hdx hdy
        tile hdone r c (k % 2) hr hc hb
      obtain ⟨-, -, w, hw, hg'⟩ := tileDone_sample N S T hle index data' hlen' dx dy hdx hdy
        tile hdone' r c (k % 2) hr hc hb
      rw [hrow, hcol, ← hk'] at hg hg'
      rw [hv] at hw
      cases hw
      rw [hg, hg']
    · rw [List.getElem?_eq_none (by omega), List.getElem?_eq_none (by omega)]

/-- C2 at a 5×5 grid split into 2×2 tiles of 3×3 samples. -/
theorem splitDem_round_trip_witness :
    ∃ tiles : List TileRaw, splitDem 5 2 3 ⟨45, 7⟩ grid5 = Except.ok tiles ∧
      (∀ i j : Nat, i < 5 → j < 5 →
        ∃ (dx dy r c : Nat) (tile : TileRaw) (b0 b1 : Byte),
          dx < 2 ∧ dy < 2 ∧ r < 3 ∧ c < 3 ∧
          (i : Int) = ((5 : Nat) : Int) - 1 - (dy : Int) * (((3 : Nat) : Int) - 1) - (r : Int) ∧
          (j : Int) = (dx : Int) * (((3 : Nat) : Int) - 1) + (c : Int) ∧
          tiles[dy * 2 + dx]? = some tile ∧
          tile.Data[(r * 3 + c) * 2]? = some b0 ∧ grid5[(i * 5 + j) * 2]? = some b0 ∧
          tile.Data[(r * 3 + c) * 2 + 1]? = some b1 ∧ grid5[(i * 5 + j) * 2 + 1]? = some b1) ∧
      (∀ data' : List Byte, data'.length = 5 * 5 * 2 →
        splitDem 5 2 3 ⟨45, 7⟩ data' = Except.ok tiles → data' = grid5) :=
  splitDem_round_trip 5 2 3 (by decide) (by decide) ⟨45, 7⟩ grid5 (by decide)

/-- The coordinates carried by the tile at list position `i` of a finished tile set. -/
theorem coords_at (N S T : Nat) (index : HgtIndex) (data : List Byte) (tiles : List TileRaw)
    (hall : ∀ dx, dx < S → ∀ dy, dy < S →
      ∃ t, tiles[dy * S + dx]? = some t ∧ TileDone N S T index data dx dy t)
    (i : Nat) (hi : i < S * S) :
    (tiles.map TileRaw.Index)[i]? = some
      { X := index.lon * (S : Int) + ((i % S : Nat) : Int),
        Y := index.lat * (S : Int) + ((i / S : Nat) : Int) } := by
  have hS : 0 < S := by
    rcases Nat.eq_zero_or_pos S with h0 | h0
    · subst h0; omega
    · exact h0
  have hd : i / S < S := by rw [Nat.div_lt_iff_lt_mul hS]; exact hi
  obtain ⟨t, hget, hX, hY, -⟩ := hall (i % S) (Nat.mod_lt i hS) (i / S) hd
  have e : i / S * S + i % S = i := by
    rw [Nat.mul_comm]; exact Nat.div_add_mod i S
  rw [e] at hget
  rw [List.getElem?_map, hget]
  show some t.Index = _
  congr 1
  cases t with
  | mk idx d =>
    cases idx with
    | mk x y =>
      simp only at hX hY
      simp only [hX, hY]

/-- C4: tile coordinates. When the tiles fit the grid, then for every cell `(lat, lon)` and every
grid, `splitDem` returns exactly `S*S` tiles, the tile at position `dy*S+dx` carries
`Index.X = lon*S+dx` and `Index.Y = lat*S+dy`, and the coordinates of the tile set are exactly
the pairs `(lon*S+dx, lat*S+dy)` with `dx, dy` in `[0,S)`, none of them twice. -/
theorem splitDem_tile_coordinates (N S T : Nat)
    (hgeo : ((T : Int) - 1) * (S : Int) ≤ (N : Int) - 1)
    (index : HgtIndex) (data : List Byte) (hlen : data.length = N * N * 2) :
    ∃ tiles : List TileRaw, splitDem N S T index data = Except.ok tiles ∧
      tiles.length = S * S ∧
      (∀ dx dy : Nat, dx < S → dy < S → ∃ tile, tiles[dy * S + dx]? = some tile ∧
        tile.Index.X = index.lon * (S : Int) + (dx : Int) ∧
        tile.Index.Y = index.lat * (S : Int) + (dy : Int)) ∧
      (∀ p : TileIndex, p ∈ tiles.map TileRaw.Index ↔
        ∃ dx dy : Nat, dx < S ∧ dy < S ∧
          p = { X := index.lon * (S : Int) + (dx : Int), Y := index.lat * (S : Int) + (dy : Int) }) ∧
      (tiles.map TileRaw.Index).Nodup := by
  obtain ⟨tiles, hrun, hl, hall⟩ := splitDem_spec N S T hgeo index data hlen
  have hat := coords_at N S T index data tiles hall
  refine ⟨tiles, hrun, hl, ?_, ?_, ?_⟩
  · intro dx dy hdx hdy
    obtain ⟨t, hget, hX, hY, -⟩ := hall dx hdx dy hdy
    exact ⟨t, hget, hX, hY⟩
  · intro p
    constructor
    · intro hp
      obtain ⟨i, hi⟩ := List.mem_iff_getElem?.mp hp
      have hlt : i < S * S := by
        obtain ⟨hlt, -⟩ := List.getElem?_eq_some.mp hi
        rw [List.length_map, hl] at hlt
        exact hlt
      have hS : 0 < S := by
        rcases Nat.eq_zero_or_pos S with h0 | h0
        · subst h0; omega
        · exact h0
      rw [hat i hlt] at hi
      cases hi
      exact ⟨i % S, i / S, Nat.mod_lt i hS, by rw [Nat.div_lt_iff_lt_mul hS]; exact hlt, rfl⟩
    · rintro ⟨dx, dy, hdx, hdy, rfl⟩
      obtain ⟨t, hget, hX, hY, -⟩ := hall dx hdx dy hdy
      apply List.mem_iff_getElem?.mpr
      refine ⟨dy * S + dx, ?_⟩
      rw [List.getElem?_map, hget]
      show some t.Index = _
      congr 1
      cases t with
      | mk idx d =>
        cases idx with
        | mk x y =>
          simp only at hX hY
          simp only [hX, hY]
  · rw [List.nodup_iff_getElem?_ne_getElem?]
    intro i j hij hj
    rw [List.length_map, hl] at hj
    rw [hat i (by omega), hat j hj]
    intro heq
    have hS : 0 < S := by
      rcases Nat.eq_zero_or_pos S with h0 | h0
      · subst h0; omega
      · exact h0
    have hX : index.lon * (S : Int) + ((i % S : Nat) : Int) =
        index.lon * (S : Int) + ((j % S : Nat) : Int) := by
      have := congrArg TileIndex.X (Option.some.inj heq)
      exact this
    have hY : index.lat * (S : Int) + ((i / S : Nat) : Int) =
        index.lat * (S : Int) + ((j / S : Nat) : Int) := by
      have := congrArg TileIndex.Y (Option.some.inj heq)
      exact this
    have h1 : i % S = j % S := by omega
    have h2 : i / S = j / S := by omega
    have e1 : S * (i / S) + i % S = i := Nat.div_add_mod i S
    have e2 : S * (j / S) + j % S = j := Nat.div_add_mod j S
    rw [h1, h2] at e1
    omega

/-- C4 for the cell `(lat = 45, lon = 7)`, on a 5×5 grid split into 2×2 tiles. -/
theorem splitDem_tile_coordinates_witness :
    ∃ tiles : List TileRaw, splitDem 5 2 3 ⟨45, 7⟩ grid5 = Except.ok tiles ∧
      tiles.length = 2 * 2 ∧
      (∀ dx dy : Nat, dx < 2 → dy < 2 → ∃ tile, tiles[dy * 2 + dx]? = some tile ∧
        tile.Index.X = 7 * ((2 : Nat) : Int) + (dx : Int) ∧
        tile.Index.Y = 45 * ((2 : Nat) : Int) + (dy : Int)) ∧
      (∀ p : TileIndex, p ∈ tiles.map TileRaw.Index ↔
        ∃ dx dy : Nat, dx < 2 ∧ dy < 2 ∧
          p = { X := 7 * ((2 : Nat) : Int) + (dx : Int), Y := 45 * ((2 : Nat) : Int) + (dy : Int) }) ∧
      (tiles.map TileRaw.Index).Nodup :=
  splitDem_tile_coordinates 5 2 3 (by decide) ⟨45, 7⟩ grid5 (by decide)

/-! ## Name decoding -/

theorem digit_bounds (c : Char) (h : c.isDigit = true) : 48 ≤ c.toNat ∧ c.toNat ≤ 57 := by
  unfold Char.isDigit at h
  simp only [Bool.and_eq_true, decide_eq_true_eq, ge_iff_le] at h
  obtain ⟨h1, h2⟩ := h
  rw [UInt32.le_def] at h1 h2
  unfold Char.toNat
  exact ⟨h1, h2⟩

theorem toUpperRune_digit (tbl : Char → Char) (c : Char) (h : c.isDigit = true) :
    toUpperRune tbl c = c := by
  have hb := digit_bounds c h
  unfold toUpperRune Char.toUpper
  simp only
  rw [if_pos (by omega), if_neg (by omega)]

theorem atoi_two (d1 d2 : Char) (h1 : d1.isDigit = true) (h2 : d2.isDigit = true) :
    atoi [d1, d2] = some (digitVal d1 * 10 + digitVal d2) := by
  have hm : ¬ (d1 = '-' ∨ d1 = '+') := by
    rintro (rfl | rfl) <;> exact absurd h1 (by decide)
  simp [atoi, atoiDigits, hm, h1, h2, digitVal]

theorem atoi_three (d1 d2 d3 : Char) (h1 : d1.isDigit = true) (h2 : d2.isDigit = true)
    (h3 : d3.isDigit = true) :
    atoi [d1, d2, d3] = some ((digitVal d1 * 10 + digitVal d2) * 10 + digitVal d3) := by
  have hm : ¬ (d1 = '-' ∨ d1 = '+') := by
    rintro (rfl | rfl) <;> exact absurd h1 (by decide)
  simp [atoi, atoiDigits, hm, h1, h2, h3, digitVal]

/-- A match at the head always decodes: the digit groups parse, so the result is the cell
read off the capture groups. -/
theorem matchHere_decodes (s : List Char) (m1 m3 : Char) (m2 m4 : List Char)
    (h : matchHere s = some (m1, m2, m3, m4)) :
    ∃ lat lon, atoi m2 = some lat ∧ atoi m4 = some lon := by
  match s, h with
  | h1 :: d1 :: d2 :: h2 :: d3 :: d4 :: d5 :: p :: x :: y :: z :: _, h =>
    simp only [matchHere] at h
    split at h
    · rename_i hc
      simp only [Option.some.injEq, Prod.mk.injEq] at h
      obtain ⟨-, rfl, -, rfl⟩ := h
      exact ⟨_, _, atoi_two d1 d2 hc.2.1 hc.2.2.1,
        atoi_three d3 d4 d5 hc.2.2.2.2.1 hc.2.2.2.2.2.1 hc.2.2.2.2.2.2.1⟩
    · cases h

theorem toUpperRune_ascii (tbl : Char → Char) (c : Char) (h : c.toNat < 128) :
    toUpperRune tbl c = c.toUpper := by
  unfold toUpperRune
  rw [if_pos h]

/-- C5: name decoding. For every name made of a hemisphere letter `N` or `S`, two decimal
digits, a hemisphere letter `E` or `W`, three decimal digits and the extension `.hgt`, in any
mix of upper and lower case, `hgtIndexFromName` returns no error, `lat` is the two-digit number
(negated iff the letter is `S`) and `lon` is the three-digit number (negated iff the letter is
`W`); in particular `"N45E007.HGT"` gives `(45, 7)` and `"s10w070.hgt"` gives `(-10, -70)`. -/
theorem hgtIndexFromName_decodes (tbl : Char → Char)
    (h1 d1 d2 h2 d3 d4 d5 x y z : Char)
    (hh1 : h1 = 'N' ∨ h1 = 'S' ∨ h1 = 'n' ∨ h1 = 's')
    (hd1 : d1.isDigit = true) (hd2 : d2.isDigit = true)
    (hh2 : h2 = 'E' ∨ h2 = 'W' ∨ h2 = 'e' ∨ h2 = 'w')
    (hd3 : d3.isDigit = true) (hd4 : d4.isDigit = true) (hd5 : d5.isDigit = true)
    (hx : x = 'H' ∨ x = 'h') (hy : y = 'G' ∨ y = 'g') (hz : z = 'T' ∨ z = 't') :
    hgtIndexFromName tbl (String.mk [h1, d1, d2, h2, d3, d4, d5, '.', x, y, z]) =
      ({ lat := if h1 = 'S' ∨ h1 = 's' then -(digitVal d1 * 10 + digitVal d2)
                else digitVal d1 * 10 + digitVal d2,
         lon := if h2 = 'W' ∨ h2 = 'w' then -((digitVal d3 * 10 + digitVal d4) * 10 + digitVal d5)
                else (digitVal d3 * 10 + digitVal d4) * 10 + digitVal d5 }, none) ∧
    hgtIndexFromName tbl "N45E007.HGT" = ({ lat := 45, lon := 7 }, none) ∧
    hgtIndexFromName tbl "s10w070.hgt" = ({ lat := -10, lon := -70 }, none) := by
  refine ⟨?_, rfl, rfl⟩
  have e1 := toUpperRune_digit tbl d1 hd1
  have e2 := toUpperRune_digit tbl d2 hd2
  have e3 := toUpperRune_digit tbl d3 hd3
  have e4 := toUpperRune_digit tbl d4 hd4
  have e5 := toUpperRune_digit tbl d5 hd5
  have ex : toUpperRune tbl x = 'H' := by rcases hx with rfl | rfl <;> rfl
  have ey : toUpperRune tbl y = 'G' := by rcases hy with rfl | rfl <;> rfl
  have ez : toUpperRune tbl z = 'T' := by rcases hz with rfl | rfl <;> rfl
  have ep : toUpperRune tbl '.' = '.' := rfl
  have a2 := atoi_two d1 d2 hd1 hd2
  have a3 := atoi_three d3 d4 d5 hd3 hd4 hd5
  have hup : goToUpper tbl (String.mk [h1, d1, d2, h2, d3, d4, d5, '.', x, y, z]).toList =
      [toUpperRune tbl h1, d1, d2, toUpperRune tbl h2, d3, d4, d5, '.', 'H', 'G', 'T'] := by
    show List.map (toUpperRune tbl) [h1, d1, d2, h2, d3, d4, d5, '.', x, y, z] = _
    simp only [List.map_cons, List.map_nil, e1, e2, e3, e4, e5, ex, ey, ez, ep]
  have k1 : (toUpperRune tbl h1 = 'N' ∧ ¬ (h1 = 'S' ∨ h1 = 's')) ∨
      (toUpperRune tbl h1 = 'S' ∧ (h1 = 'S' ∨ h1 = 's')) := by
    rcases hh1 with rfl | rfl | rfl | rfl
    · exact Or.inl ⟨rfl, by decide⟩
    · exact Or.inr ⟨rfl, by decide⟩
    · exact Or.inl ⟨rfl, by decide⟩
    · exact Or.inr ⟨rfl, by decide⟩
  have k2 : (toUpperRune tbl h2 = 'E' ∧ ¬ (h2 = 'W' ∨ h2 = 'w')) ∨
      (toUpperRune tbl h2 = 'W' ∧ (h2 = 'W' ∨ h2 = 'w')) := by
    rcases hh2 with rfl | rfl | rfl | rfl
    · exact Or.inl ⟨rfl, by decide⟩
    · exact Or.inr ⟨rfl, by decide⟩
    · exact Or.inl ⟨rfl, by decide⟩
    · exact Or.inr ⟨rfl, by decide⟩
  have hm : matchHere [toUpperRune tbl h1, d1, d2, toUpperRune tbl h2, d3, d4, d5, '.', 'H', 'G', 'T']
      = some (toUpperRune tbl h1, [d1, d2], toUpperRune tbl h2, [d3, d4, d5]) := by
    simp only [matchHere]
    rw [if_pos]
    refine ⟨?_, hd1, hd2, ?_, hd3, hd4, hd5, by first | rfl | trivial, by first | rfl | trivial,
      by first | rfl | trivial, by first | rfl | trivial⟩
    · rcases k1 with ⟨e, -⟩ | ⟨e, -⟩
      · exact Or.inl e
      · exact Or.inr e
    · rcases k2 with ⟨e, -⟩ | ⟨e, -⟩
      · exact Or.inl e
      · exact Or.inr e
  unfold hgtIndexFromName
  rw [hup]
  simp only [findStringSubmatch, hm, a2, a3]
  rcases k1 with ⟨u1, n1⟩ | ⟨u1, n1⟩ <;> rcases k2 with ⟨u2, n2⟩ | ⟨u2, n2⟩
  · rw [u1, u2, if_neg n1, if_neg n2, if_neg (by decide), if_neg (by decide)]
  · rw [u1, u2, if_neg n1, if_pos n2, if_neg (by decide), if_pos rfl]
  · rw [u1, u2, if_pos n1, if_neg n2, if_pos rfl, if_neg (by decide)]
  · rw [u1, u2, if_pos n1, if_pos n2, if_pos rfl, if_pos rfl]

/-- C5 at the name `n45W007.hGt`. -/
theorem hgtIndexFromName_decodes_witness :
    hgtIndexFromName id (String.mk ['n', '4', '5', 'W', '0', '0', '7', '.', 'h', 'G', 't']) =
      ({ lat := if 'n' = 'S' ∨ 'n' = 's' then -(digitVal '4' * 10 + digitVal '5')
                else digitVal '4' * 10 + digitVal '5',
         lon := if 'W' = 'W' ∨ 'W' = 'w' then
                  -((digitVal '0' * 10 + digitVal '0') * 10 + digitVal '7')
                else (digitVal '0' * 10 + digitVal '0') * 10 + digitVal '7' }, none) ∧
    hgtIndexFromName id "N45E007.HGT" = ({ lat := 45, lon := 7 }, none) ∧
    hgtIndexFromName id "s10w070.hgt" = ({ lat := -10, lon := -70 }, none) :=
  hgtIndexFromName_decodes id 'n' '4' '5' 'W' '0' '0' '7' 'h' 'G' 't'
    (by decide) (by decide) (by decide) (by decide) (by decide) (by decide) (by decide)
    (by decide) (by decide) (by decide)

theorem isCore_length (core : List Char) (h : isCore core = true) : core.length = 11 := by
  match core, h with
  | [h1, d1, d2, h2, d3, d4, d5, p, x, y, z], _ => rfl

/-- The matcher succeeds at the head exactly when the first eleven runes have the form. -/
theorem matchHere_isSome (s : List Char) :
    (matchHere s).isSome = true ↔ ∃ core suf, s = core ++ suf ∧ isCore core = true := by
  constructor
  · intro h
    match s, h with
    | h1 :: d1 :: d2 :: h2 :: d3 :: d4 :: d5 :: p :: x :: y :: z :: rest, h =>
      refine ⟨[h1, d1, d2, h2, d3, d4, d5, p, x, y, z], rest, rfl, ?_⟩
      simp only [matchHere] at h
      split at h
      · rename_i hc
        simp only [isCore, Bool.and_eq_true, Bool.or_eq_true, beq_iff_eq]
        tauto
      · cases h
  · rintro ⟨core, suf, rfl, hc⟩
    match core, hc with
    | [h1, d1, d2, h2, d3, d4, d5, p, x, y, z], hc =>
      simp only [isCore, Bool.and_eq_true, Bool.or_eq_true, beq_iff_eq] at hc
      simp only [List.cons_append, List.nil_append, matchHere]
      rw [if_pos (by tauto)]
      rfl

theorem findStringSubmatch_none (s : List Char) :
    findStringSubmatch s = none ↔ ¬ HasCore s := by
  induction s with
  | nil =>
    constructor
    · rintro - ⟨pre, core, suf, he, hc⟩
      have hl := isCore_length core hc
      have := congrArg List.length he
      simp only [List.length_nil, List.length_append] at this
      omega
    · intro _
      rfl
  | cons c cs ih =>
    constructor
    · intro h ⟨pre, core, suf, he, hc⟩
      simp only [findStringSubmatch] at h
      split at h
      · cases h
      · rename_i hnone
        cases pre with
        | nil =>
          have hs : (matchHere (c :: cs)).isSome = true :=
            (matchHere_isSome (c :: cs)).mpr ⟨core, suf, by simpa using he, hc⟩
          rw [hnone] at hs
          cases hs
        | cons p pre' =>
          simp only [List.cons_append, List.cons.injEq] at he
          exact (ih.mp h) ⟨pre', core, suf, he.2, hc⟩
    · intro h
      simp only [findStringSubmatch]
      split
      · rename_i m hm
        exfalso
        obtain ⟨core, suf, he, hc⟩ := (matchHere_isSome (c :: cs)).mp (by rw [hm]; rfl)
        exact h ⟨[], core, suf, by simpa using he, hc⟩
      · apply ih.mpr
        rintro ⟨pre, core, suf, he, hc⟩
        exact h ⟨c :: pre, core, suf, by simp [he], hc⟩

/-- Whatever `FindStringSubmatch` returns was matched at the head of some string. -/
theorem findStringSubmatch_some (s : List Char) (m : Char × List Char × Char × List Char)
    (h : findStringSubmatch s = some m) : ∃ s', matchHere s' = some m := by
  induction s with
  | nil => cases h
  | cons c cs ih =>
    simp only [findStringSubmatch] at h
    split at h
    · rename_i m' hm
      cases h
      exact ⟨c :: cs, hm⟩
    · exact ih h

theorem toUpper_ascii (c : Char) (h : c.toUpper.toNat < 128) : c.toNat < 128 := by
  unfold Char.toUpper at h
  simp only at h
  split at h
  · omega
  · exact h

theorem isCore_ascii (l : List Char) (h : isCore l = true) (c : Char) (hc : c ∈ l) :
    c.toNat < 128 := by
  match l, h with
  | [h1, d1, d2, h2, d3, d4, d5, p, x, y, z], h =>
    simp only [isCore, Bool.and_eq_true, Bool.or_eq_true, beq_iff_eq, and_assoc] at h
    obtain ⟨a1, a2, a3, a4, a5, a6, a7, a8, a9, a10, a11⟩ := h
    have b2 := (digit_bounds _ a2).2
    have b3 := (digit_bounds _ a3).2
    have b5 := (digit_bounds _ a5).2
    have b6 := (digit_bounds _ a6).2
    have b7 := (digit_bounds _ a7).2
    simp only [List.mem_cons, List.mem_singleton, List.not_mem_nil, or_false] at hc
    rcases hc with rfl | rfl | rfl | rfl | rfl | rfl | rfl | rfl | rfl | rfl | rfl
    · rcases a1 with rfl | rfl <;> decide
    · omega
    · omega
    · rcases a4 with rfl | rfl <;> decide
    · omega
    · omega
    · omega
    · rw [a8]; decide
    · rw [a9]; decide
    · rw [a10]; decide
    · rw [a11]; decide

/-- C6, as the code has it: `hgtIndexFromName` fails with the error "invalid HGT file name" and
the zero cell exactly for the names whose upper-cased form contains no substring of the form
`<N|S><2 digits><E|W><3 digits>.HGT`, such as `"garbage.hgt"`; every other name is decoded
without error, so the digit-parse branch rejects nothing, and no name of the form
`<N|S><2 digits><E|W><3 digits>.hgt` (letters in either case) is rejected. -/
theorem hgtIndexFromName_rejects (tbl : Char → Char) (name : String) :
    (¬ HasCore (goToUpper tbl name.toList) →
      hgtIndexFromName tbl name = ({ lat := 0, lon := 0 }, some "invalid HGT file name")) ∧
    (HasCore (goToUpper tbl name.toList) → (hgtIndexFromName tbl name).2 = none) ∧
    (isHgtName name.toList = true → (hgtIndexFromName tbl name).2 = none) ∧
    hgtIndexFromName tbl "garbage.hgt" =
      ({ lat := 0, lon := 0 }, some "invalid HGT file name") := by
  have hyes : HasCore (goToUpper tbl name.toList) → (hgtIndexFromName tbl name).2 = none := by
    intro hc
    unfold hgtIndexFromName
    cases hf : findStringSubmatch (goToUpper tbl name.toList) with
    | none => exact absurd hc ((findStringSubmatch_none _).mp hf)
    | some m =>
      obtain ⟨m1, m2, m3, m4⟩ := m
      obtain ⟨s', hs'⟩ := findStringSubmatch_some _ _ hf
      obtain ⟨lat, lon, hlat, hlon⟩ := matchHere_decodes s' m1 m3 m2 m4 hs'
      simp only [hlat, hlon]
  refine ⟨?_, hyes, ?_, rfl⟩
  · intro hno
    unfold hgtIndexFromName
    rw [(findStringSubmatch_none _).mpr hno]
  · intro hn
    apply hyes
    -- an upper-cased name of the form is its own core
    refine ⟨[], goToUpper tbl name.toList, [], by simp, ?_⟩
    unfold isHgtName at hn
    have hu : goToUpper tbl name.toList = name.toList.map Char.toUpper := by
      unfold goToUpper
      apply List.map_congr_left
      intro c hc
      apply toUpperRune_ascii
      apply toUpper_ascii
      exact isCore_ascii _ hn _ (List.mem_map_of_mem Char.toUpper hc)
    rw [hu]
    exact hn

/-- C6 fails on the code: the name `N45E007.hgt.gz` is not of the form `<N|S><2 digits><E|W><3 digits>.hgt`, yet
`hgtIndexFromName` decodes it to the cell `(45, 7)` without error. -/
theorem hgtIndexFromName_accepts_longer_name :
    isHgtName "N45E007.hgt.gz".toList = false ∧
    ∀ tbl : Char → Char,
      hgtIndexFromName tbl "N45E007.hgt.gz" = ({ lat := 45, lon := 7 }, none) :=
  ⟨by decide, fun _ => rfl⟩

/-! ## The storage writer -/

theorem write_at_end (f : DataFile) (b : List Byte) (h : f.pos = f.bytes.length) :
    f.write b = { bytes := f.bytes ++ b, pos := f.bytes.length + b.length } := by
  unfold DataFile.write
  rw [h]
  simp

/-- A put that passes the range check and lands inside the table. -/
theorem PutTile_inRange (S : Nat) (compressTile : List Byte → List Byte)
    (storage : StorageWriter S) (tile : TileRaw) (hr : InRange S tile.Index) :
    PutTile S compressTile FileAnswers.good storage tile = Except.ok (none,
      { fData := storage.fData.write (compressTile tile.Data),
        index := storage.index.set
          ⟨(tile.Index.X + 180 * (S : Int)).toNat, by unfold InRange at hr; omega⟩
          ⟨(tile.Index.Y + 90 * (S : Int)).toNat, by unfold InRange at hr; omega⟩
          { offset := (storage.fData.pos : Int), length := ((compressTile tile.Data).length : Int) } }) := by
  have hr' := hr
  unfold InRange at hr'
  unfold PutTile
  simp only [FileAnswers.good]
  rw [if_neg (by omega), dif_pos (by omega)]

/-- A put that the range check rejects: the payload is already in the data file. -/
theorem PutTile_rejected (S : Nat) (compressTile : List Byte → List Byte)
    (storage : StorageWriter S) (tile : TileRaw)
    (hout : tile.Index.X + 180 * (S : Int) < 0 ∨ tile.Index.Y + 90 * (S : Int) < 0 ∨
      tile.Index.X + 180 * (S : Int) > (indexWidth S : Int) ∨
      tile.Index.Y + 90 * (S : Int) > (indexHeight S : Int)) :
    PutTile S compressTile FileAnswers.good storage tile = Except.ok (some "tile index out of range",
      { fData := storage.fData.write (compressTile tile.Data), index := storage.index }) := by
  unfold PutTile
  simp only [FileAnswers.good]
  rw [if_pos hout]

/-- Every `PutTile` that returns keeps the offset of the data file at its end, whatever the
file system answers: the writer only ever appends. -/
theorem PutTile_offset_at_end (S : Nat) (compressTile : List Byte → List Byte)
    (env : FileAnswers) (storage : StorageWriter S) (tile : TileRaw)
    (e : Option String) (w : StorageWriter S)
    (hpos : storage.fData.pos = storage.fData.bytes.length)
    (h : PutTile S compressTile env storage tile = Except.ok (e, w)) :
    w.fData.pos = w.fData.bytes.length := by
  unfold PutTile at h
  simp only at h
  split at h
  · cases h
    exact hpos
  · split at h
    · cases h
      simp only [write_at_end storage.fData _ hpos, List.length_append]
    · split at h
      · cases h
        simp only [write_at_end storage.fData _ hpos, List.length_append]
      · split at h
        · cases h
          simp only [write_at_end storage.fData _ hpos, List.length_append]
        · cases h

/-- Only the two errors of the file answers matter to `PutTile`. -/
theorem PutTile_env_good (S : Nat) (compressTile : List Byte → List Byte) (env : FileAnswers)
    (storage : StorageWriter S) (tile : TileRaw)
    (hseek : env.seekErr = none) (hwrite : env.writeErr = none) :
    PutTile S compressTile env storage tile =
      PutTile S compressTile FileAnswers.good storage tile := by
  unfold PutTile
  simp only [hseek, hwrite, FileAnswers.good]

/-- C7 fails on the code at the upper edges: for a tile whose shifted position is inside or
on the edge of the table and has `x = width` or `y = height`, `PutTile` (with both file
operations succeeding) does not return the range error but aborts with the run-time panic
of an out-of-bounds index. -/
theorem PutTile_edge_panics (S : Nat) (compressTile : List Byte → List Byte) (env : FileAnswers)
    (storage : StorageWriter S) (tile : TileRaw)
    (hseek : env.seekErr = none) (hwrite : env.writeErr = none)
    (hx : 0 ≤ tile.Index.X + 180 * (S : Int) ∧ tile.Index.X + 180 * (S : Int) ≤ (indexWidth S : Int))
    (hy : 0 ≤ tile.Index.Y + 90 * (S : Int) ∧ tile.Index.Y + 90 * (S : Int) ≤ (indexHeight S : Int))
    (hedge : tile.Index.X + 180 * (S : Int) = (indexWidth S : Int) ∨
      tile.Index.Y + 90 * (S : Int) = (indexHeight S : Int)) :
    PutTile S compressTile env storage tile = Except.error "index out of range" := by
  rw [PutTile_env_good S compressTile env storage tile hseek hwrite]
  unfold PutTile
  simp only [FileAnswers.good]
  rw [if_neg (by omega), dif_neg (by omega)]

/-- The edge panic for split factor 20 at the tile `(X, Y) = (3600, 0)`, where `x = 7200` is
the width of the table. -/
theorem PutTile_edge_panics_witness :
    PutTile 20 (fun d => d) FileAnswers.good (StorageWriter.fresh 20)
      { Index := { X := 3600, Y := 0 }, Data := [1, 2] } = Except.error "index out of range" :=
  PutTile_edge_panics 20 (fun d => d) FileAnswers.good (StorageWriter.fresh 20)
    { Index := { X := 3600, Y := 0 }, Data := [1, 2] } rfl rfl (by decide) (by decide) (by decide)

/-- C8 fails on the code: with split factor 1 and a codec that stores its input, a put of the
tile `(X, Y) = (-181, 0)` on a fresh writer returns the range error, but the data file holds
the two payload bytes afterwards and its offset has moved. -/
theorem rejected_put_has_written :
    ∃ w : StorageWriter 1,
      PutTile 1 (fun d => d) FileAnswers.good (StorageWriter.fresh 1)
        { Index := { X := -181, Y := 0 }, Data := [1, 2] } =
        Except.ok (some "tile index out of range", w) ∧
      w.fData = { bytes := [1, 2], pos := 2 } ∧
      (StorageWriter.fresh 1).fData = { bytes := [], pos := 0 } ∧
      w.fData ≠ (StorageWriter.fresh 1).fData :=
  ⟨_, PutTile_rejected 1 (fun d => d) (StorageWriter.fresh 1)
      { Index := { X := -181, Y := 0 }, Data := [1, 2] } (by decide),
    by decide, rfl, by decide⟩

/-- C8, as the code has it: for every writer state and every tile whose shifted position has
`x < 0`, `y < 0`, `x > width` or `y > height`, when both file operations succeed `PutTile`
returns the range error and leaves every index entry as it was, but the compressed payload has
been written to the data file before the check; on a writer whose offset is the end of the
file the contents are the old contents followed by the payload. -/
theorem PutTile_rejected_put (S : Nat) (compressTile : List Byte → List Byte) (env : FileAnswers)
    (storage : StorageWriter S) (tile : TileRaw)
    (hseek : env.seekErr = none) (hwrite : env.writeErr = none)
    (hout : tile.Index.X + 180 * (S : Int) < 0 ∨ tile.Index.Y + 90 * (S : Int) < 0 ∨
      tile.Index.X + 180 * (S : Int) > (indexWidth S : Int) ∨
      tile.Index.Y + 90 * (S : Int) > (indexHeight S : Int)) :
    ∃ w : StorageWriter S,
      PutTile S compressTile env storage tile =
        Except.ok (some "tile index out of range", w) ∧
      w.index = storage.index ∧
      w.fData = storage.fData.write (compressTile tile.Data) ∧
      (storage.fData.pos = storage.fData.bytes.length →
        w.fData.bytes = storage.fData.bytes ++ compressTile tile.Data ∧
        w.fData.pos = storage.fData.bytes.length + (compressTile tile.Data).length) := by
  refine ⟨_, (PutTile_env_good S compressTile env storage tile hseek hwrite).trans
    (PutTile_rejected S compressTile storage tile hout), rfl, rfl, ?_⟩
  intro hpos
  simp only [write_at_end storage.fData (compressTile tile.Data) hpos, and_self]

/-- C8 as the code has it, at the tile `(X, Y) = (-181, 0)` on a fresh writer. -/
theorem PutTile_rejected_put_witness :
    ∃ w : StorageWriter 1,
      PutTile 1 (fun d => d) FileAnswers.good (StorageWriter.fresh 1)
        { Index := { X := -181, Y := 0 }, Data := [1, 2] } =
        Except.ok (some "tile index out of range", w) ∧
      w.index = (StorageWriter.fresh 1).index ∧
      w.fData = (StorageWriter.fresh 1).fData.write ((fun d => d) [1, 2]) ∧
      ((StorageWriter.fresh 1).fData.pos = (StorageWriter.fresh 1).fData.bytes.length →
        w.fData.bytes = (StorageWriter.fresh 1).fData.bytes ++ (fun d => d) [1, 2] ∧
        w.fData.pos = (StorageWriter.fresh 1).fData.bytes.length +
          ((fun d => d) ([1, 2] : List Byte)).length) :=
  PutTile_rejected_put 1 (fun d => d) FileAnswers.good (StorageWriter.fresh 1)
    { Index := { X := -181, Y := 0 }, Data := [1, 2] } rfl rfl (by decide)

/-- C9: successful put. For every writer state whose file offset is the end of the data file
and every tile with in-range coordinates, when both file operations succeed `PutTile` returns
no error, the data file becomes the old contents followed by the compressed payload, the index
entry at `(X + 180*S, Y + 90*S)` becomes (offset = the end offset before the call, length =
the length of the compressed payload), and every other index entry is unchanged. -/
theorem PutTile_success (S : Nat) (compressTile : List Byte → List Byte) (env : FileAnswers)
    (storage : StorageWriter S) (tile : TileRaw)
    (hseek : env.seekErr = none) (hwrite : env.writeErr = none)
    (hpos : storage.fData.pos = storage.fData.bytes.length)
    (hx : 0 ≤ tile.Index.X + 180 * (S : Int) ∧ tile.Index.X + 180 * (S : Int) < (indexWidth S : Int))
    (hy : 0 ≤ tile.Index.Y + 90 * (S : Int) ∧ tile.Index.Y + 90 * (S : Int) < (indexHeight S : Int)) :
    ∃ (w : StorageWriter S) (x : Fin (indexWidth S)) (y : Fin (indexHeight S)),
      PutTile S compressTile env storage tile = Except.ok (none, w) ∧
      (x.val : Int) = tile.Index.X + 180 * (S : Int) ∧
      (y.val : Int) = tile.Index.Y + 90 * (S : Int) ∧
      w.fData.bytes = storage.fData.bytes ++ compressTile tile.Data ∧
      w.fData.pos = w.fData.bytes.length ∧
      w.index x y = { offset := (storage.fData.bytes.length : Int),
                      length := ((compressTile tile.Data).length : Int) } ∧
      ∀ i j, (i ≠ x ∨ j ≠ y) → w.index i j = storage.index i j := by
  have hr : InRange S tile.Index := ⟨hx.1, hx.2, hy.1, hy.2⟩
  have hrun := PutTile_env_good S compressTile env storage tile hseek hwrite
  refine ⟨_, ⟨(tile.Index.X + 180 * (S : Int)).toNat, by omega⟩,
    ⟨(tile.Index.Y + 90 * (S : Int)).toNat, by omega⟩,
    hrun.trans (PutTile_inRange S compressTile storage tile hr), ?_, ?_, ?_, ?_, ?_, ?_⟩
  · simp only; omega
  · simp only; omega
  · simp only [write_at_end storage.fData (compressTile tile.Data) hpos]
  · simp only [write_at_end storage.fData (compressTile tile.Data) hpos, List.length_append]
  · simp only [tileFileIndex.set, and_self, if_true, hpos]
  · intro i j hij
    simp only [tileFileIndex.set]
    rw [if_neg]
    intro hc
    rcases hij with h | h
    · exact h hc.1
    · exact h hc.2

/-- C9 at the tile `(X, Y) = (179, 89)` on a fresh writer with split factor 1. -/
theorem PutTile_success_witness :
    ∃ (w : StorageWriter 1) (x : Fin (indexWidth 1)) (y : Fin (indexHeight 1)),
      PutTile 1 (fun d => d) FileAnswers.good (StorageWriter.fresh 1)
        { Index := { X := 179, Y := 89 }, Data := [1, 2] } = Except.ok (none, w) ∧
      (x.val : Int) = 179 + 180 * ((1 : Nat) : Int) ∧
      (y.val : Int) = 89 + 90 * ((1 : Nat) : Int) ∧
      w.fData.bytes = (StorageWriter.fresh 1).fData.bytes ++ (fun d => d) [1, 2] ∧
      w.fData.pos = w.fData.bytes.length ∧
      w.index x y = { offset := ((StorageWriter.fresh 1).fData.bytes.length : Int),
                      length := (((fun d => d) ([1, 2] : List Byte)).length : Int) } ∧
      ∀ i j, (i ≠ x ∨ j ≠ y) → w.index i j = (StorageWriter.fresh 1).index i j :=
  PutTile_success 1 (fun d => d) FileAnswers.good (StorageWriter.fresh 1)
    { Index := { X := 179, Y := 89 }, Data := [1, 2] } rfl rfl rfl (by decide) (by decide)

/-- The index entry of `q` after the entry of the in-range coordinates `p` was assigned. -/
theorem lookup_set (S : Nat) (fd : DataFile) (idx : tileFileIndex S) (p : TileIndex)
    (hp : InRange S p) (r : tileFileIndexRecord) (q : TileIndex) :
    (StorageWriter.mk fd (idx.set
      ⟨(p.X + 180 * (S : Int)).toNat, by unfold InRange at hp; omega⟩
      ⟨(p.Y + 90 * (S : Int)).toNat, by unfold InRange at hp; omega⟩ r)).lookup q =
    if q = p then some r else (StorageWriter.mk fd idx).lookup q := by
  have hp' := hp
  unfold InRange at hp'
  by_cases hq : InRange S q
  · have hq' := hq
    unfold InRange at hq'
    unfold StorageWriter.lookup
    rw [dif_pos hq, dif_pos hq]
    simp only [tileFileIndex.set, Fin.mk.injEq]
    by_cases hqp : q = p
    · subst hqp
      simp
    · rw [if_neg hqp, if_neg]
      rintro ⟨h1, h2⟩
      apply hqp
      cases q with
      | mk qx qy =>
        cases p with
        | mk px py =>
          simp only at h1 h2 hq' hp'
          have e1 : qx = px := by omega
          have e2 : qy = py := by omega
          rw [e1, e2]
  · have hne : q ≠ p := fun e => hq (e ▸ hp)
    unfold StorageWriter.lookup
    rw [dif_neg hq, dif_neg hq, if_neg hne]

/-- One successful put on a writer whose offset is the end of its file. -/
theorem PutTile_step (S : Nat) (compressTile : List Byte → List Byte)
    (storage : StorageWriter S) (t : TileRaw)
    (hpos : storage.fData.pos = storage.fData.bytes.length) (hr : InRange S t.Index) :
    ∃ w1 : StorageWriter S,
      PutTile S compressTile FileAnswers.good storage t = Except.ok (none, w1) ∧
      w1.fData.pos = w1.fData.bytes.length ∧
      w1.fData.bytes.length = storage.fData.bytes.length + payloadSize compressTile t ∧
      ∀ q, w1.lookup q =
        if q = t.Index then some { offset := (storage.fData.bytes.length : Int),
                                   length := (payloadSize compressTile t : Int) }
        else storage.lookup q := by
  refine ⟨_, PutTile_inRange S compressTile storage t hr, ?_, ?_, ?_⟩
  · simp only [write_at_end storage.fData (compressTile t.Data) hpos, List.length_append]
  · simp only [write_at_end storage.fData (compressTile t.Data) hpos, List.length_append,
      payloadSize]
  · intro q
    rw [lookup_set S _ storage.index t.Index hr, hpos]
    rfl

/-- A run of successful puts with pairwise distinct in-range coordinates, from a writer whose
offset is the end of its file: nothing fails, the file grows by the payloads, the entry of the
`k`-th tile is the end offset before its put with the size of its payload, and the entries of
other coordinates are untouched. -/
theorem putSeq_spec (S : Nat) (compressTile : List Byte → List Byte) (calls : List TileRaw) :
    ∀ storage : StorageWriter S, storage.fData.pos = storage.fData.bytes.length →
    (∀ t, t ∈ calls → InRange S t.Index) → (calls.map TileRaw.Index).Nodup →
    ∃ w : StorageWriter S,
      putSeq S compressTile storage (calls.map (fun t => (FileAnswers.good, t))) =
        Except.ok (List.replicate calls.length none, w) ∧
      w.fData.pos = w.fData.bytes.length ∧
      w.fData.bytes.length =
        storage.fData.bytes.length + (calls.map (payloadSize compressTile)).sum ∧
      (∀ k t, calls[k]? = some t → w.lookup t.Index = some
        { offset := ((storage.fData.bytes.length +
            ((calls.take k).map (payloadSize compressTile)).sum : Nat) : Int),
          length := (payloadSize compressTile t : Int) }) ∧
      (∀ q, q ∉ calls.map TileRaw.Index → w.lookup q = storage.lookup q) := by
  induction calls with
  | nil =>
    intro storage hpos _ _
    exact ⟨storage, rfl, hpos, by simp, by simp, fun _ _ => rfl⟩
  | cons t rest ih =>
    intro storage hpos hrange hnodup
    have hr : InRange S t.Index := hrange t (List.mem_cons_self t rest)
    rw [List.map_cons, List.nodup_cons] at hnodup
    obtain ⟨hnotin, hnodup'⟩ := hnodup
    obtain ⟨w1, hput, hpos1, hlen1, hlook1⟩ := PutTile_step S compressTile storage t hpos hr
    obtain ⟨w, hrun, hwpos, hwlen, hwrec, hwother⟩ := ih w1 hpos1
      (fun u hu => hrange u (List.mem_cons_of_mem t hu)) hnodup'
    refine ⟨w, ?_, hwpos, ?_, ?_, ?_⟩
    · simp only [List.map_cons, putSeq, hput, hrun, List.length_cons, List.replicate_succ]
    · rw [hwlen, hlen1]
      simp only [List.map_cons, List.sum_cons]
      omega
    · intro k u hk
      cases k with
      | zero =>
        simp only [List.getElem?_cons_zero, Option.some.injEq] at hk
        subst hk
        rw [hwother _ hnotin, hlook1, if_pos rfl]
        simp
      | succ k =>
        simp only [List.getElem?_cons_succ] at hk
        rw [hwrec k u hk, hlen1]
        simp only [List.take_succ_cons, List.map_cons, List.sum_cons]
        congr 2
        omega
    · intro q hq
      simp only [List.map_cons, List.mem_cons, not_or] at hq
      rw [hwother q hq.2, hlook1, if_neg hq.1]

theorem sum_take_le (l : List Nat) : ∀ i j, i ≤ j → (l.take i).sum ≤ (l.take j).sum := by
  induction l with
  | nil => intro i j _; simp
  | cons a l ih =>
    intro i j hij
    cases i with
    | zero => simp
    | succ i =>
      cases j with
      | zero => omega
      | succ j =>
        simp only [List.take_succ_cons, List.sum_cons]
        have := ih i j (by omega)
        omega

theorem sum_take_succ (l : List Nat) : ∀ i a, l[i]? = some a →
    (l.take (i + 1)).sum = (l.take i).sum + a := by
  induction l with
  | nil => intro i a h; simp at h
  | cons b l ih =>
    intro i a h
    cases i with
    | zero =>
      simp only [List.getElem?_cons_zero, Option.some.injEq] at h
      simp [h]
    | succ i =>
      simp only [List.getElem?_cons_succ] at h
      have := ih i a h
      simp only [List.take_succ_cons, List.sum_cons] at this ⊢
      omega

theorem sum_take_le_sum (l : List Nat) (i : Nat) : (l.take i).sum ≤ l.sum := by
  have h := sum_take_le l i (max i l.length) (Nat.le_max_left _ _)
  rw [List.take_of_length_le (Nat.le_max_right _ _)] at h
  exact h

/-- The end of the range of an earlier put is at most the start of the range of a later one. -/
theorem ranges_ordered (sizes : List Nat) (i j a : Nat) (hij : i < j) (hi : sizes[i]? = some a) :
    (sizes.take i).sum + a ≤ (sizes.take j).sum := by
  rw [← sum_take_succ sizes i a hi]
  exact sum_take_le sizes (i + 1) j hij

/-- C10: non-overlapping records. Starting from a fresh writer (empty data file, all-zero
index), for every run of successful `PutTile` calls with pairwise distinct in-range
coordinates, in whatever order the mutex lets them in, every call returns no error, each tile
has an index record of the size of its compressed payload whose byte range
`[offset, offset+length)` lies inside the data file, the ranges of two different calls do not
overlap, and the final length of the data file is the sum of the compressed sizes. -/
theorem putSeq_records_disjoint (S : Nat) (compressTile : List Byte → List Byte)
    (calls : List TileRaw) (hrange : ∀ t, t ∈ calls → InRange S t.Index)
    (hdistinct : (calls.map TileRaw.Index).Nodup) :
    ∃ w : StorageWriter S,
      putSeq S compressTile (StorageWriter.fresh S) (calls.map (fun t => (FileAnswers.good, t))) =
        Except.ok (List.replicate calls.length none, w) ∧
      w.fData.bytes.length = (calls.map (payloadSize compressTile)).sum ∧
      (∀ (k : Nat) (t : TileRaw), calls[k]? = some t → ∃ r, w.lookup t.Index = some r ∧
        r.length = (payloadSize compressTile t : Int) ∧ 0 ≤ r.offset ∧
        r.offset + r.length ≤ (w.fData.bytes.length : Int)) ∧
      (∀ (i j : Nat) (ti tj : TileRaw) (ri rj : tileFileIndexRecord), i ≠ j → calls[i]? = some ti → calls[j]? = some tj →
        w.lookup ti.Index = some ri → w.lookup tj.Index = some rj → Disjoint2 ri rj) := by
  obtain ⟨w, hrun, -, hlen, hrec, -⟩ :=
    putSeq_spec S compressTile calls (StorageWriter.fresh S) rfl hrange hdistinct
  have hlen' : w.fData.bytes.length = (calls.map (payloadSize compressTile)).sum := by
    rw [hlen]; simp [StorageWriter.fresh]
  have hsz : ∀ (k : Nat) (t : TileRaw), calls[k]? = some t →
      (calls.map (payloadSize compressTile))[k]? = some (payloadSize compressTile t) := by
    intro k t hk
    rw [List.getElem?_map, hk]; rfl
  have hoff : ∀ (k : Nat) (t : TileRaw), calls[k]? = some t → w.lookup t.Index = some
      { offset := ((((calls.map (payloadSize compressTile)).take k).sum : Nat) : Int),
        length := (payloadSize compressTile t : Int) } := by
    intro k t hk
    rw [hrec k t hk, List.map_take]
    simp [StorageWriter.fresh]
  refine ⟨w, hrun, hlen', ?_, ?_⟩
  · intro k t hk
    refine ⟨_, hoff k t hk, rfl, by simp only; omega, ?_⟩
    have h1 := sum_take_succ _ k _ (hsz k t hk)
    have h2 := sum_take_le_sum (calls.map (payloadSize compressTile)) (k + 1)
    simp only
    rw [hlen']
    omega
  · intro i j ti tj ri rj hne hi hj hri hrj
    rw [hoff i ti hi] at hri
    rw [hoff j tj hj] at hrj
    cases hri
    cases hrj
    unfold Disjoint2
    simp only
    rcases Nat.lt_or_gt_of_ne hne with hlt | hgt
    · left
      have := ranges_ordered _ i j _ hlt (hsz i ti hi)
      omega
    · right
      have := ranges_ordered _ j i _ hgt (hsz j tj hj)
      omega

/-- C10 for two puts at the opposite corners of the table with split factor 1. -/
theorem putSeq_records_disjoint_witness :
    ∃ w : StorageWriter 1,
      putSeq 1 (fun d => d) (StorageWriter.fresh 1)
        (([{ Index := { X := 179, Y := 89 }, Data := [1, 2] },
           { Index := { X := -180, Y := -90 }, Data := [3] }] : List TileRaw).map
          (fun t => (FileAnswers.good, t))) =
        Except.ok (List.replicate
          ([{ Index := { X := 179, Y := 89 }, Data := [1, 2] },
            { Index := { X := -180, Y := -90 }, Data := [3] }] : List TileRaw).length none, w) ∧
      w.fData.bytes.length =
        (([{ Index := { X := 179, Y := 89 }, Data := [1, 2] },
           { Index := { X := -180, Y := -90 }, Data := [3] }] : List TileRaw).map
          (payloadSize (fun d => d))).sum ∧
      (∀ (k : Nat) (t : TileRaw), ([{ Index := { X := 179, Y := 89 }, Data := [1, 2] },
           { Index := { X := -180, Y := -90 }, Data := [3] }] : List TileRaw)[k]? = some t →
        ∃ r, w.lookup t.Index = some r ∧
        r.length = (payloadSize (fun d => d) t : Int) ∧ 0 ≤ r.offset ∧
        r.offset + r.length ≤ (w.fData.bytes.length : Int)) ∧
      (∀ (i j : Nat) (ti tj : TileRaw) (ri rj : tileFileIndexRecord), i ≠ j →
        ([{ Index := { X := 179, Y := 89 }, Data := [1, 2] },
           { Index := { X := -180, Y := -90 }, Data := [3] }] : List TileRaw)[i]? = some ti →
        ([{ Index := { X := 179, Y := 89 }, Data := [1, 2] },
           { Index := { X := -180, Y := -90 }, Data := [3] }] : List TileRaw)[j]? = some tj →
        w.lookup ti.Index = some ri → w.lookup tj.Index = some rj → Disjoint2 ri rj) :=
  putSeq_records_disjoint 1 (fun d => d)
    [{ Index := { X := 179, Y := 89 }, Data := [1, 2] },
     { Index := { X := -180, Y := -90 }, Data := [3] }]
    (by decide) (by decide)

/-! ## Reading a grid file -/

/-- The byte-swap loop on a stream of `N*N*2` bytes never panics; it returns a buffer of the
same length in which the two bytes of every sample have changed places. -/
theorem swapBytes_spec (N : Nat) (d : List Byte) (hlen : d.length = N * N * 2) :
    ∃ r, swapBytes N d = Except.ok r ∧ r.length = N * N * 2 ∧
      ∀ i, i < N * N → r[i * 2]? = d[i * 2 + 1]? ∧ r[i * 2 + 1]? = d[i * 2]? := by
  have key := foldlM_range_inv (swapStep d)
    (fun k r => r.length = N * N * 2 ∧
      ∀ i, i < k → r[i * 2]? = d[i * 2 + 1]? ∧ r[i * 2 + 1]? = d[i * 2]?)
    (N * N) (List.replicate (N * N * 2) 0)
    ⟨List.length_replicate _ _, fun i hi => absurd hi (Nat.not_lt_zero i)⟩
    (by
      intro k r hk hP
      obtain ⟨hrl, hdone⟩ := hP
      have h1 : k * 2 + 1 < d.length := by omega
      have h0 : k * 2 < d.length := by omega
      refine ⟨(r.set (k * 2) d[k * 2 + 1]).set (k * 2 + 1) d[k * 2], ?_, ?_, ?_⟩
      · unfold swapStep
        rw [List.getElem?_eq_getElem h1, List.getElem?_eq_getElem h0]
        simp only
        rw [if_pos (by omega)]
      · simp only [List.length_set, hrl]
      · intro i hi
        rcases Nat.lt_succ_iff_lt_or_eq.mp hi with hlt | heq
        · obtain ⟨e1, e2⟩ := hdone i hlt
          constructor
          · rw [List.getElem?_set, if_neg (by omega), List.getElem?_set, if_neg (by omega), e1]
          · rw [List.getElem?_set, if_neg (by omega), List.getElem?_set, if_neg (by omega), e2]
        · subst heq
          constructor
          · rw [List.getElem?_set, if_neg (by omega), List.getElem?_set, if_pos rfl,
              if_pos (by omega), List.getElem?_eq_getElem h1]
          · rw [List.getElem?_set, if_pos rfl, if_pos (by simp only [List.length_set]; omega),
              List.getElem?_eq_getElem h0])
  obtain ⟨r, h1, h2, h3⟩ := key
  exact ⟨r, h1, h2, h3⟩

/-- Swapping twice gives the stream back. -/
theorem swapBytes_twice (N : Nat) (d r : List Byte) (hlen : d.length = N * N * 2)
    (hr : swapBytes N d = Except.ok r) : swapBytes N r = Except.ok d := by
  obtain ⟨r1, hr1, hl1, hs1⟩ := swapBytes_spec N d hlen
  rw [hr] at hr1
  cases hr1
  obtain ⟨r2, hr2, hl2, hs2⟩ := swapBytes_spec N r hl1
  rw [hr2]
  congr 1
  apply List.ext_getElem?
  intro j
  by_cases hj : j < N * N * 2
  · have hi : j / 2 < N * N := by omega
    obtain ⟨a1, a2⟩ := hs1 (j / 2) hi
    obtain ⟨b1, b2⟩ := hs2 (j / 2) hi
    rcases Nat.mod_two_eq_zero_or_one j with h0 | h1
    · have e : j = j / 2 * 2 := by omega
      rw [e, b1, a2]
    · have e : j = j / 2 * 2 + 1 := by omega
      rw [e, b2, a1]
  · rw [List.getElem?_eq_none (by omega), List.getElem?_eq_none (by omega)]

/-- What `readHgtFile` does with a file that opens and decodes to the stream `d`. -/
theorem readHgtFile_decoded (N : Nat) (fs : Files) (path : String) (d : List Byte)
    (hopen : fs.openErr path = none) (hdec : DecodesTo fs path d) :
    readHgtFile N fs path = readGrid N (ReadAnswer.data d) := by
  unfold readHgtFile
  simp only [hopen]
  rcases hdec with ⟨he, hd⟩ | ⟨he, hd⟩ | ⟨he, hd⟩
  · rw [he, hd, if_pos rfl]
  · rw [he, hd, if_neg (by decide), if_pos rfl]
  · rw [he, hd, if_neg (by decide), if_neg (by decide), if_pos rfl]

/-- C11: byte-order normalisation. For every file that opens and decodes to a stream `d` of
exactly `N*N*2` bytes, `readHgtFile` returns a buffer `result` of the same length with
`result[2i] = d[2i+1]` and `result[2i+1] = d[2i]` for every `i` in `[0, N*N)`, and applying
the swap a second time gives back `d`. -/
theorem readHgtFile_swaps_bytes (N : Nat) (fs : Files) (path : String) (d : List Byte)
    (hopen : fs.openErr path = none) (hdec : DecodesTo fs path d)
    (hlen : d.length = N * N * 2) :
    ∃ result : List Byte, readHgtFile N fs path = Except.ok (some result, none) ∧
      result.length = N * N * 2 ∧
      (∀ i : Nat, i < N * N → ∃ b0 b1 : Byte,
        d[2 * i]? = some b0 ∧ d[2 * i + 1]? = some b1 ∧
        result[2 * i]? = some b1 ∧ result[2 * i + 1]? = some b0) ∧
      swapBytes N result = Except.ok d := by
  obtain ⟨r, hr, hl, hs⟩ := swapBytes_spec N d hlen
  refine ⟨r, ?_, hl, ?_, swapBytes_twice N d r hlen hr⟩
  · rw [readHgtFile_decoded N fs path d hopen hdec]
    unfold readGrid
    simp only [hlen, ne_eq, not_true_eq_false, if_false, hr]
  · intro i hi
    obtain ⟨e1, e2⟩ := hs i hi
    have h0 : i * 2 < d.length := by omega
    have h1 : i * 2 + 1 < d.length := by omega
    have c0 : 2 * i = i * 2 := by omega
    refine ⟨d[i * 2], d[i * 2 + 1], ?_, ?_, ?_, ?_⟩
    · rw [c0]; exact List.getElem?_eq_getElem h0
    · rw [c0]; exact List.getElem?_eq_getElem h1
    · rw [c0, e1]; exact List.getElem?_eq_getElem h1
    · rw [c0, e2]; exact List.getElem?_eq_getElem h0

/-- C11 for a 2×2 grid read from `dir/N45E007.hgt`. -/
theorem readHgtFile_swaps_bytes_witness :
    ∃ result : List Byte,
      readHgtFile 2 (Files.holding raw8) "dir/N45E007.hgt" = Except.ok (some result, none) ∧
      result.length = 2 * 2 * 2 ∧
      (∀ i : Nat, i < 2 * 2 → ∃ b0 b1 : Byte,
        raw8[2 * i]? = some b0 ∧ raw8[2 * i + 1]? = some b1 ∧
        result[2 * i]? = some b1 ∧ result[2 * i + 1]? = some b0) ∧
      swapBytes 2 result = Except.ok raw8 :=
  readHgtFile_swaps_bytes 2 (Files.holding raw8) "dir/N45E007.hgt" raw8 rfl
    (Or.inl ⟨by decide, rfl⟩) (by decide)

/-- The model of `readHgtFile` run on the eight bytes of `raw8` as a 2×2 grid. -/
theorem readHgtFile_raw8 :
    readHgtFile 2 (Files.holding raw8) "dir/N45E007.hgt" =
      Except.ok (some [2, 1, 4, 3, 6, 5, 8, 7], none) := by
  rfl

/-- C12: size validation. For a file with a data-bearing extension (`.hgt`, `.bz2`, `.gz`) that
opens and decodes without error to a stream `d`, `readHgtFile` fails with the error
"invalid HGT size" and no buffer if and only if the length of `d` differs from `N*N*2`, and
when the length is `N*N*2` it succeeds with a buffer. -/
theorem readHgtFile_size_check (N : Nat) (fs : Files) (path : String) (d : List Byte)
    (hopen : fs.openErr path = none) (hdec : DecodesTo fs path d) :
    (readHgtFile N fs path = Except.ok (none, some "invalid HGT size") ↔
      d.length ≠ N * N * 2) ∧
    (d.length = N * N * 2 →
      ∃ result : List Byte, readHgtFile N fs path = Except.ok (some result, none)) := by
  have hsucc : d.length = N * N * 2 →
      ∃ result : List Byte, readHgtFile N fs path = Except.ok (some result, none) := by
    intro hlen
    obtain ⟨r, hr, -, -⟩ := swapBytes_spec N d hlen
    refine ⟨r, ?_⟩
    rw [readHgtFile_decoded N fs path d hopen hdec]
    unfold readGrid
    simp only [hlen, ne_eq, not_true_eq_false, if_false, hr]
  refine ⟨⟨?_, ?_⟩, hsucc⟩
  · intro hfail hlen
    obtain ⟨r, hr⟩ := hsucc hlen
    rw [hr] at hfail
    cases hfail
  · intro hne
    rw [readHgtFile_decoded N fs path d hopen hdec]
    unfold readGrid
    simp only [ne_eq, hne, not_false_eq_true, if_true]

/-- C12 for a stream of eight bytes read as a 1×1 grid from `dir/N45E007.hgt.gz`. -/
theorem readHgtFile_size_check_witness :
    (readHgtFile 1 (Files.holding raw8) "dir/N45E007.hgt.gz" =
        Except.ok (none, some "invalid HGT size") ↔ raw8.length ≠ 1 * 1 * 2) ∧
    (raw8.length = 1 * 1 * 2 → ∃ result : List Byte,
      readHgtFile 1 (Files.holding raw8) "dir/N45E007.hgt.gz" =
        Except.ok (some result, none)) :=
  readHgtFile_size_check 1 (Files.holding raw8) "dir/N45E007.hgt.gz" raw8 rfl
    (Or.inr (Or.inr ⟨by decide, rfl⟩))

/-- Upper-case and lower-case ASCII letters of the extension `.xml` fall together under
`strings.ToLower`, whatever the Unicode table. -/
theorem lowerExt_xml (fs : Files) (path : String) (x m l : Char)
    (hx : x = 'x' ∨ x = 'X') (hm : m = 'm' ∨ m = 'M') (hl : l = 'l' ∨ l = 'L')
    (hext : filepathExt path.toList = ['.', x, m, l]) : lowerExt fs path = ".xml" := by
  unfold lowerExt
  rw [hext]
  rcases hx with rfl | rfl <;> rcases hm with rfl | rfl <;> rcases hl with rfl | rfl <;> rfl

/-- C13: extension dispatch. For every path that opens, with the extension taken in lower
case: if it is `.xml` (in any mix of upper and lower case), `readHgtFile` returns no data and
no error whatever the file holds; if it is none of `.hgt`, `.bz2`, `.gz`, `.xml`, it returns
no data and the error "unknown hgt file extension: " followed by the extension. -/
theorem readHgtFile_extension_dispatch (N : Nat) (fs : Files) (path : String)
    (hopen : fs.openErr path = none) :
    (lowerExt fs path = ".xml" → readHgtFile N fs path = Except.ok (none, none)) ∧
    (∀ x m l : Char, (x = 'x' ∨ x = 'X') → (m = 'm' ∨ m = 'M') → (l = 'l' ∨ l = 'L') →
      filepathExt path.toList = ['.', x, m, l] →
      readHgtFile N fs path = Except.ok (none, none)) ∧
    (lowerExt fs path ≠ ".hgt" → lowerExt fs path ≠ ".bz2" → lowerExt fs path ≠ ".gz" →
      lowerExt fs path ≠ ".xml" →
      readHgtFile N fs path =
        Except.ok (none, some ("unknown hgt file extension: " ++ lowerExt fs path))) := by
  have hxml : lowerExt fs path = ".xml" → readHgtFile N fs path = Except.ok (none, none) := by
    intro he
    unfold readHgtFile
    simp only [hopen]
    rw [he, if_neg (by decide), if_neg (by decide), if_neg (by decide), if_pos rfl]
  refine ⟨hxml, ?_, ?_⟩
  · intro x m l hx hm hl hext
    exact hxml (lowerExt_xml fs path x m l hx hm hl hext)
  · intro h1 h2 h3 h4
    unfold readHgtFile
    simp only [hopen]
    rw [if_neg h1, if_neg h2, if_neg h3, if_neg h4]

/-- C13 at the path `dir/N45E007.XmL`, whose file holds eight bytes. -/
theorem readHgtFile_extension_dispatch_witness :
    (lowerExt (Files.holding raw8) "dir/N45E007.XmL" = ".xml" →
      readHgtFile 2 (Files.holding raw8) "dir/N45E007.XmL" = Except.ok (none, none)) ∧
    (∀ x m l : Char, (x = 'x' ∨ x = 'X') → (m = 'm' ∨ m = 'M') → (l = 'l' ∨ l = 'L') →
      filepathExt "dir/N45E007.XmL".toList = ['.', x, m, l] →
      readHgtFile 2 (Files.holding raw8) "dir/N45E007.XmL" = Except.ok (none, none)) ∧
    (lowerExt (Files.holding raw8) "dir/N45E007.XmL" ≠ ".hgt" →
      lowerExt (Files.holding raw8) "dir/N45E007.XmL" ≠ ".bz2" →
      lowerExt (Files.holding raw8) "dir/N45E007.XmL" ≠ ".gz" →
      lowerExt (Files.holding raw8) "dir/N45E007.XmL" ≠ ".xml" →
      readHgtFile 2 (Files.holding raw8) "dir/N45E007.XmL" =
        Except.ok (none, some ("unknown hgt file extension: " ++
          lowerExt (Files.holding raw8) "dir/N45E007.XmL"))) :=
  readHgtFile_extension_dispatch 2 (Files.holding raw8) "dir/N45E007.XmL" rfl

/-- The model of `readHgtFile` run on a file with the extension `.txt`. -/
theorem readHgtFile_txt :
    readHgtFile 2 (Files.holding raw8) "dir/N45E007.txt" =
      Except.ok (none, some "unknown hgt file extension: .txt") := by
  rfl

/-! ## The splitter does not abort -/

/-- With `TileSize = (HgtSize-1)/HgtSplitParts + 1` the tiles fit the grid. -/
theorem tileSize_fits (N S T : Nat) (hN : 0 < N) (hS : 0 < S)
    (hT : (T : Int) = Int.tdiv ((N : Int) - 1) (S : Int) + 1) :
    ((T : Int) - 1) * (S : Int) ≤ (N : Int) - 1 := by
  have h1 : (0 : Int) ≤ (N : Int) - 1 := by omega
  have h2 : (0 : Int) ≤ (S : Int) := by omega
  rw [Int.tdiv_eq_ediv h1 h2] at hT
  have h3 : ((N : Int) - 1) / (S : Int) * (S : Int) ≤ (N : Int) - 1 :=
    Int.ediv_mul_le _ (by omega)
  have h4 : (T : Int) - 1 = ((N : Int) - 1) / (S : Int) := by omega
  rw [h4]
  exact h3

theorem hgtIndexAt_cast (N S T : Nat) (h : ((T : Int) - 1) * (S : Int) ≤ (N : Int) - 1)
    (dx dy row : Nat) (hdy : dy < S) (hrow : row < T) :
    hgtIndexAt N T dx dy row = ((srcRow N T dy row * N + dx * (T - 1) : Nat) : Int) := by
  unfold hgtIndexAt
  rw [← srcRow_cast N S T h dy row hdy hrow]
  have e : ((T - 1 : Nat) : Int) = (T : Int) - 1 := by omega
  push_cast
  rw [e]

/-- C14: the splitter never aborts. With `T = (N-1)/S + 1` in Go integer division (for a grid
size and split factor that are positive), for every cell and every grid buffer of `N*N*2`
bytes `splitDem` returns, and for every `dx, dy` in `[0,S)` and `row` in `[0,T)` the source
slice bounds lie inside the grid buffer, the destination offset lies inside the tile buffer,
and the row copy transfers exactly `T*2` bytes, so the row step does not panic. -/
theorem splitDem_never_aborts (N S T : Nat) (hN : 0 < N) (hS : 0 < S)
    (hT : (T : Int) = Int.tdiv ((N : Int) - 1) (S : Int) + 1)
    (index : HgtIndex) (data : List Byte) (hlen : data.length = N * N * 2) :
    (∃ tiles : List TileRaw, splitDem N S T index data = Except.ok tiles) ∧
    ∀ (dx dy row : Nat) (tileData : List Byte), dx < S → dy < S → row < T →
      tileData.length = T * T * 2 →
      0 ≤ hgtIndexAt N T dx dy row * 2 ∧
      hgtIndexAt N T dx dy row * 2 ≤ (hgtIndexAt N T dx dy row + (T : Int)) * 2 ∧
      (hgtIndexAt N T dx dy row + (T : Int)) * 2 ≤ (data.length : Int) ∧
      0 ≤ (row : Int) * (T : Int) * 2 ∧
      (row : Int) * (T : Int) * 2 + (T : Int) * 2 ≤ (tileData.length : Int) ∧
      (∃ src : List Byte,
        goSlice data (hgtIndexAt N T dx dy row * 2)
          ((hgtIndexAt N T dx dy row + (T : Int)) * 2) = Except.ok src ∧
        (goCopyAt tileData ((row : Int) * (T : Int) * 2).toNat src).1 = T * 2) ∧
      ∃ tileData' : List Byte,
        splitRow N T data dx dy tileData row = Except.ok tileData' := by
  have hgeo := tileSize_fits N S T hN hS hT
  constructor
  · obtain ⟨tiles, hrun, -, -⟩ := splitDem_spec N S T hgeo index data hlen
    exact ⟨tiles, hrun⟩
  · intro dx dy row tileData hdx hdy hrow htd
    have hbr := (geo_bound N S T hgeo dy row hdy hrow).1
    have hbc := (geo_bound N S T hgeo dx row hdx hrow).2
    have hsr : srcRow N T dy row + 1 ≤ N := by unfold srcRow; omega
    have hsrc : (srcRow N T dy row * N + dx * (T - 1)) * 2 + T * 2 ≤ data.length := by
      have h1 : (srcRow N T dy row + 1) * N ≤ N * N := Nat.mul_le_mul_right N hsr
      have h2 : (srcRow N T dy row + 1) * N = srcRow N T dy row * N + N := by ring
      rw [hlen]; omega
    have hdst : row * (T * 2) + T * 2 ≤ tileData.length := by
      have h1 : (row + 1) * T ≤ T * T := Nat.mul_le_mul_right T hrow
      have h2 : (row + 1) * T = row * T + T := by ring
      have h3 : row * (T * 2) = row * T * 2 := by ring
      rw [htd]; omega
    have hc := hgtIndexAt_cast N S T hgeo dx dy row hdy hrow
    have e3 : hgtIndexAt N T dx dy row * 2 =
        (((srcRow N T dy row * N + dx * (T - 1)) * 2 : Nat) : Int) := by
      rw [hc]; push_cast; ring
    have e4 : (hgtIndexAt N T dx dy row + (T : Int)) * 2 =
        (((srcRow N T dy row * N + dx * (T - 1)) * 2 : Nat) : Int) + ((T * 2 : Nat) : Int) := by
      rw [hc]; push_cast; ring
    have eoff : (row : Int) * (T : Int) * 2 = ((row * (T * 2) : Nat) : Int) := by
      push_cast; ring
    obtain ⟨src, hs, hslen, -⟩ :=
      goSlice_ok data ((srcRow N T dy row * N + dx * (T - 1)) * 2) (T * 2) hsrc
    obtain ⟨td', hrun, -, -, -⟩ :=
      splitRow_ok N S T hgeo data hlen dx dy hdx hdy tileData htd row hrow
    refine ⟨by rw [e3]; omega, by rw [e3, e4]; omega, by rw [e4]; omega, by rw [eoff]; omega,
      ?_, ⟨src, by rw [e3, e4]; exact hs, ?_⟩, ⟨td', hrun⟩⟩
    · rw [eoff]
      have : ((T : Int) * 2) = ((T * 2 : Nat) : Int) := by push_cast; ring
      omega
    · rw [eoff, Int.toNat_ofNat, goCopyAt_fst tileData _ src (by omega), hslen]

/-- C14 for a 5×5 grid split in two along each axis, where `T = 4/2 + 1 = 3`. -/
theorem splitDem_never_aborts_witness :
    (∃ tiles : List TileRaw, splitDem 5 2 3 ⟨45, 7⟩ grid5 = Except.ok tiles) ∧
    ∀ (dx dy row : Nat) (tileData : List Byte), dx < 2 → dy < 2 → row < 3 →
      tileData.length = 3 * 3 * 2 →
      0 ≤ hgtIndexAt 5 3 dx dy row * 2 ∧
      hgtIndexAt 5 3 dx dy row * 2 ≤ (hgtIndexAt 5 3 dx dy row + ((3 : Nat) : Int)) * 2 ∧
      (hgtIndexAt 5 3 dx dy row + ((3 : Nat) : Int)) * 2 ≤ (grid5.length : Int) ∧
      0 ≤ (row : Int) * ((3 : Nat) : Int) * 2 ∧
      (row : Int) * ((3 : Nat) : Int) * 2 + ((3 : Nat) : Int) * 2 ≤ (tileData.length : Int) ∧
      (∃ src : List Byte,
        goSlice grid5 (hgtIndexAt 5 3 dx dy row * 2)
          ((hgtIndexAt 5 3 dx dy row + ((3 : Nat) : Int)) * 2) = Except.ok src ∧
        (goCopyAt tileData ((row : Int) * ((3 : Nat) : Int) * 2).toNat src).1 = 3 * 2) ∧
      ∃ tileData' : List Byte,
        splitRow 5 3 grid5 dx dy tileData row = Except.ok tileData' :=
  splitDem_never_aborts 5 2 3 (by decide) (by decide) (by decide) ⟨45, 7⟩ grid5 (by decide)

/-! ## Tile coordinates and the index table -/

/-- Every tile of the tile set that `splitDem` returns is the finished tile of some
position `(dx, dy)`. -/
theorem tile_of_mem (N S T : Nat) (index : HgtIndex) (data : List Byte)
    (tiles : List TileRaw) (hl : tiles.length = S * S)
    (hall : ∀ dx, dx < S → ∀ dy, dy < S →
      ∃ t, tiles[dy * S + dx]? = some t ∧ TileDone N S T index data dx dy t)
    (t : TileRaw) (ht : t ∈ tiles) :
    ∃ dx dy, dx < S ∧ dy < S ∧ tiles[dy * S + dx]? = some t ∧
      TileDone N S T index data dx dy t := by
  obtain ⟨i, hi⟩ := List.mem_iff_getElem?.mp ht
  have hlt : i < S * S := by
    obtain ⟨hlt, -⟩ := List.getElem?_eq_some.mp hi
    rw [hl] at hlt
    exact hlt
  have hS : 0 < S := by
    rcases Nat.eq_zero_or_pos S with h0 | h0
    · subst h0; omega
    · exact h0
  have hd : i / S < S := by rw [Nat.div_lt_iff_lt_mul hS]; exact hlt
  obtain ⟨t', hget, hdone⟩ := hall (i % S) (Nat.mod_lt i hS) (i / S) hd
  have e : i / S * S + i % S = i := by
    rw [Nat.mul_comm]; exact Nat.div_add_mod i S
  have ht' : t' = t := by
    rw [e, hi] at hget
    exact (Option.some.inj hget).symm
  subst ht'
  exact ⟨i % S, i / S, Nat.mod_lt i hS, hd, hget, hdone⟩

/-- A put whose tile is inside the table returns the error of its file operations and
nothing else. -/
theorem PutTile_inRange_error (S : Nat) (compressTile : List Byte → List Byte)
    (env : FileAnswers) (storage : StorageWriter S) (tile : TileRaw)
    (hr : InRange S tile.Index) :
    ∃ w : StorageWriter S,
      PutTile S compressTile env storage tile = Except.ok (env.error, w) := by
  have hr' := hr
  unfold InRange at hr'
  unfold PutTile FileAnswers.error
  cases hs : env.seekErr with
  | some e => exact ⟨_, rfl⟩
  | none =>
    cases hw : env.writeErr with
    | some e => exact ⟨_, rfl⟩
    | none =>
      simp only
      rw [if_neg (by omega), dif_pos (by omega)]
      exact ⟨_, rfl⟩

/-- The shifted position of a tile of a cell between 180°W and 179°E, 90°S and 89°N. -/
theorem shifted_inside (S : Nat) (a : Int) (d : Nat) (k : Int)
    (hlo : -k ≤ a) (hhi : a ≤ k - 1) (hd : d < S) :
    0 ≤ a * (S : Int) + (d : Int) + k * (S : Int) ∧
    a * (S : Int) + (d : Int) + k * (S : Int) < 2 * k * (S : Int) := by
  have hS : (0 : Int) ≤ (S : Int) := by omega
  have h1 : (-k) * (S : Int) ≤ a * (S : Int) := Int.mul_le_mul_of_nonneg_right hlo hS
  have h2 : a * (S : Int) ≤ (k - 1) * (S : Int) := Int.mul_le_mul_of_nonneg_right hhi hS
  have e1 : (-k) * (S : Int) = -(k * (S : Int)) := by ring
  have e2 : (k - 1) * (S : Int) = k * (S : Int) - (S : Int) := by ring
  have e3 : 2 * k * (S : Int) = k * (S : Int) + k * (S : Int) := by ring
  rw [e1] at h1
  rw [e2] at h2
  rw [e3]
  constructor <;> omega

/-- C17: real-world cells are always storable. For every cell with `-90 ≤ lat ≤ 89` and
`-180 ≤ lon ≤ 179` and every grid (the tiles fitting the grid), each of the `S*S` tiles that
`splitDem` returns has its shifted position `x = X + 180*S` in `[0, 360*S)` and
`y = Y + 90*S` in `[0, 180*S)`, so that `PutTile` on it never panics and returns no error
other than that of its file operations, never the range error. -/
theorem splitDem_tiles_storable (N S T : Nat)
    (hgeo : ((T : Int) - 1) * (S : Int) ≤ (N : Int) - 1)
    (index : HgtIndex) (hlat : -90 ≤ index.lat ∧ index.lat ≤ 89)
    (hlon : -180 ≤ index.lon ∧ index.lon ≤ 179)
    (data : List Byte) (hlen : data.length = N * N * 2) :
    ∃ tiles : List TileRaw, splitDem N S T index data = Except.ok tiles ∧
      tiles.length = S * S ∧
      ∀ t : TileRaw, t ∈ tiles →
        (0 ≤ t.Index.X + 180 * (S : Int) ∧ t.Index.X + 180 * (S : Int) < 360 * (S : Int) ∧
         0 ≤ t.Index.Y + 90 * (S : Int) ∧ t.Index.Y + 90 * (S : Int) < 180 * (S : Int)) ∧
        ∀ (compressTile : List Byte → List Byte) (env : FileAnswers)
          (storage : StorageWriter S), ∃ w : StorageWriter S,
          PutTile S compressTile env storage t = Except.ok (env.error, w) := by
  obtain ⟨tiles, hrun, hl, hall⟩ := splitDem_spec N S T hgeo index data hlen
  refine ⟨tiles, hrun, hl, ?_⟩
  intro t ht
  obtain ⟨dx, dy, hdx, hdy, -, hX, hY, -⟩ := tile_of_mem N S T index data tiles hl hall t ht
  have hx := shifted_inside S index.lon dx 180 (by omega) (by omega) hdx
  have hy := shifted_inside S index.lat dy 90 (by omega) (by omega) hdy
  have hbox : 0 ≤ t.Index.X + 180 * (S : Int) ∧ t.Index.X + 180 * (S : Int) < 360 * (S : Int) ∧
      0 ≤ t.Index.Y + 90 * (S : Int) ∧ t.Index.Y + 90 * (S : Int) < 180 * (S : Int) := by
    rw [hX, hY]
    omega
  refine ⟨hbox, ?_⟩
  intro compressTile env storage
  apply PutTile_inRange_error
  unfold InRange indexWidth indexHeight
  push_cast
  omega

/-- C17 for the cell `(lat = -90, lon = 179)` at the corner of the table. -/
theorem splitDem_tiles_storable_witness :
    ∃ tiles : List TileRaw, splitDem 5 2 3 ⟨-90, 179⟩ grid5 = Except.ok tiles ∧
      tiles.length = 2 * 2 ∧
      ∀ t : TileRaw, t ∈ tiles →
        (0 ≤ t.Index.X + 180 * ((2 : Nat) : Int) ∧
         t.Index.X + 180 * ((2 : Nat) : Int) < 360 * ((2 : Nat) : Int) ∧
         0 ≤ t.Index.Y + 90 * ((2 : Nat) : Int) ∧
         t.Index.Y + 90 * ((2 : Nat) : Int) < 180 * ((2 : Nat) : Int)) ∧
        ∀ (compressTile : List Byte → List Byte) (env : FileAnswers)
          (storage : StorageWriter 2), ∃ w : StorageWriter 2,
          PutTile 2 compressTile env storage t = Except.ok (env.error, w) :=
  splitDem_tiles_storable 5 2 3 (by decide) ⟨-90, 179⟩ (by decide) (by decide) grid5
    (by decide)

/-- A coordinate `a*S + d` with `d` in `[0,S)` determines `a` and `d`. -/
theorem cell_inj (S : Nat) (a a' : Int) (d d' : Nat) (hd : d < S) (hd' : d' < S)
    (h : a * (S : Int) + (d : Int) = a' * (S : Int) + (d' : Int)) : a = a' ∧ d = d' := by
  have hS : (0 : Int) ≤ (S : Int) := by omega
  have key : a = a' := by
    rcases lt_trichotomy a a' with hlt | heq | hgt
    · exfalso
      have h1 : (a + 1) * (S : Int) ≤ a' * (S : Int) :=
        Int.mul_le_mul_of_nonneg_right (by omega) hS
      have e : (a + 1) * (S : Int) = a * (S : Int) + (S : Int) := by ring
      rw [e] at h1
      omega
    · exact heq
    · exfalso
      have h1 : (a' + 1) * (S : Int) ≤ a * (S : Int) :=
        Int.mul_le_mul_of_nonneg_right (by omega) hS
      have e : (a' + 1) * (S : Int) = a' * (S : Int) + (S : Int) := by ring
      rw [e] at h1
      omega
  subst key
  exact ⟨rfl, by omega⟩

/-- A `PutTile` that returns changes no index entry but that of its own tile. -/
theorem PutTile_other_entries (S : Nat) (compressTile : List Byte → List Byte)
    (env : FileAnswers) (storage : StorageWriter S) (tile : TileRaw)
    (e : Option String) (w : StorageWriter S)
    (h : PutTile S compressTile env storage tile = Except.ok (e, w))
    (q : TileIndex) (hq : q ≠ tile.Index) : w.lookup q = storage.lookup q := by
  unfold PutTile at h
  simp only at h
  split at h
  · cases h; rfl
  · split at h
    · cases h; rfl
    · split at h
      · cases h; rfl
      · rename_i hnot
        split at h
        · rename_i hin
          cases h
          have hr : InRange S tile.Index := by
            unfold InRange
            omega
          rw [lookup_set S _ storage.index tile.Index hr, if_neg hq]
          rfl
        · cases h

/-- C18: tiles of different cells never collide. The map
`(lat, lon, dx, dy) ↦ (lon*S+dx, lat*S+dy)` with `dx, dy` in `[0,S)` is injective over all
integer cells; so for two different cells no tile that `splitDem` returns for the one has
the coordinates of a tile of the other, and a `PutTile` of a tile of the one leaves the
index entry of every tile of the other as it was. -/
theorem tile_coordinates_injective (N S T : Nat)
    (hgeo : ((T : Int) - 1) * (S : Int) ≤ (N : Int) - 1)
    (c1 c2 : HgtIndex) (hne : c1 ≠ c2) (d1 d2 : List Byte)
    (hlen1 : d1.length = N * N * 2) (hlen2 : d2.length = N * N * 2) :
    (∀ (lat lon lat' lon' : Int) (dx dy dx' dy' : Nat),
      dx < S → dy < S → dx' < S → dy' < S →
      lon * (S : Int) + (dx : Int) = lon' * (S : Int) + (dx' : Int) →
      lat * (S : Int) + (dy : Int) = lat' * (S : Int) + (dy' : Int) →
      lat = lat' ∧ lon = lon' ∧ dx = dx' ∧ dy = dy') ∧
    ∃ tiles1 tiles2 : List TileRaw,
      splitDem N S T c1 d1 = Except.ok tiles1 ∧ splitDem N S T c2 d2 = Except.ok tiles2 ∧
      ∀ t1 t2 : TileRaw, t1 ∈ tiles1 → t2 ∈ tiles2 →
        t1.Index ≠ t2.Index ∧
        ∀ (compressTile : List Byte → List Byte) (env : FileAnswers)
          (storage : StorageWriter S) (e : Option String) (w : StorageWriter S),
          PutTile S compressTile env storage t2 = Except.ok (e, w) →
          w.lookup t1.Index = storage.lookup t1.Index := by
  have hinj : ∀ (lat lon lat' lon' : Int) (dx dy dx' dy' : Nat),
      dx < S → dy < S → dx' < S → dy' < S →
      lon * (S : Int) + (dx : Int) = lon' * (S : Int) + (dx' : Int) →
      lat * (S : Int) + (dy : Int) = lat' * (S : Int) + (dy' : Int) →
      lat = lat' ∧ lon = lon' ∧ dx = dx' ∧ dy = dy' := by
    intro lat lon lat' lon' dx dy dx' dy' hdx hdy hdx' hdy' hX hY
    obtain ⟨a1, a2⟩ := cell_inj S lon lon' dx dx' hdx hdx' hX
    obtain ⟨b1, b2⟩ := cell_inj S lat lat' dy dy' hdy hdy' hY
    exact ⟨b1, a1, a2, b2⟩
  refine ⟨hinj, ?_⟩
  obtain ⟨tiles1, hrun1, hl1, hall1⟩ := splitDem_spec N S T hgeo c1 d1 hlen1
  obtain ⟨tiles2, hrun2, hl2, hall2⟩ := splitDem_spec N S T hgeo c2 d2 hlen2
  refine ⟨tiles1, tiles2, hrun1, hrun2, ?_⟩
  intro t1 t2 ht1 ht2
  obtain ⟨dx, dy, hdx, hdy, -, hX, hY, -⟩ := tile_of_mem N S T c1 d1 tiles1 hl1 hall1 t1 ht1
  obtain ⟨dx', dy', hdx', hdy', -, hX', hY', -⟩ :=
    tile_of_mem N S T c2 d2 tiles2 hl2 hall2 t2 ht2
  have hdiff : t1.Index ≠ t2.Index := by
    intro heq
    apply hne
    have e1 : t1.Index.X = t2.Index.X := by rw [heq]
    have e2 : t1.Index.Y = t2.Index.Y := by rw [heq]
    rw [hX, hX'] at e1
    rw [hY, hY'] at e2
    obtain ⟨a, b, -, -⟩ := hinj c1.lat c1.lon c2.lat c2.lon dx dy dx' dy' hdx hdy hdx' hdy' e1 e2
    cases c1
    cases c2
    simp only at a b
    rw [a, b]
  refine ⟨hdiff, ?_⟩
  intro compressTile env storage e w hput
  exact PutTile_other_entries S compressTile env storage t2 e w hput t1.Index hdiff

/-- C18 for the neighbouring cells `(45, 7)` and `(45, 8)`. -/
theorem tile_coordinates_injective_witness :
    (∀ (lat lon lat' lon' : Int) (dx dy dx' dy' : Nat),
      dx < 2 → dy < 2 → dx' < 2 → dy' < 2 →
      lon * ((2 : Nat) : Int) + (dx : Int) = lon' * ((2 : Nat) : Int) + (dx' : Int) →
      lat * ((2 : Nat) : Int) + (dy : Int) = lat' * ((2 : Nat) : Int) + (dy' : Int) →
      lat = lat' ∧ lon = lon' ∧ dx = dx' ∧ dy = dy') ∧
    ∃ tiles1 tiles2 : List TileRaw,
      splitDem 5 2 3 ⟨45, 7⟩ grid5 = Except.ok tiles1 ∧
      splitDem 5 2 3 ⟨45, 8⟩ grid5 = Except.ok tiles2 ∧
      ∀ t1 t2 : TileRaw, t1 ∈ tiles1 → t2 ∈ tiles2 →
        t1.Index ≠ t2.Index ∧
        ∀ (compressTile : List Byte → List Byte) (env : FileAnswers)
          (storage : StorageWriter 2) (e : Option String) (w : StorageWriter 2),
          PutTile 2 compressTile env storage t2 = Except.ok (e, w) →
          w.lookup t1.Index = storage.lookup t1.Index :=
  tile_coordinates_injective 5 2 3 (by decide) ⟨45, 7⟩ ⟨45, 8⟩ (by decide) grid5 grid5
    (by decide) (by decide)

/-! ## Name matching as a substring search -/

/-- The matcher reads the first eleven runes only. -/
theorem matchHere_append : ∀ (l Y : List Char), 11 ≤ l.length →
    matchHere (l ++ Y) = matchHere l
  | _ :: _ :: _ :: _ :: _ :: _ :: _ :: _ :: _ :: _ :: _ :: _, _, _ => by
    simp only [List.cons_append, matchHere]
  | [], _, h => by simp only [List.length_nil] at h; omega
  | [_], _, h => by simp only [List.length_cons, List.length_nil] at h; omega
  | [_, _], _, h => by simp only [List.length_cons, List.length_nil] at h; omega
  | [_, _, _], _, h => by simp only [List.length_cons, List.length_nil] at h; omega
  | [_, _, _, _], _, h => by simp only [List.length_cons, List.length_nil] at h; omega
  | [_, _, _, _, _], _, h => by simp only [List.length_cons, List.length_nil] at h; omega
  | [_, _, _, _, _, _], _, h => by simp only [List.length_cons, List.length_nil] at h; omega
  | [_, _, _, _, _, _, _], _, h => by simp only [List.length_cons, List.length_nil] at h; omega
  | [_, _, _, _, _, _, _, _], _, h => by
    simp only [List.length_cons, List.length_nil] at h; omega
  | [_, _, _, _, _, _, _, _, _], _, h => by
    simp only [List.length_cons, List.length_nil] at h; omega
  | [_, _, _, _, _, _, _, _, _, _], _, h => by
    simp only [List.length_cons, List.length_nil] at h; omega

/-- `FindStringSubmatch` passes over a stretch in which no match starts. -/
theorem findStringSubmatch_skip : ∀ (pre rest : List Char),
    (∀ i, i < pre.length → matchHere ((pre ++ rest).drop i) = none) →
    findStringSubmatch (pre ++ rest) = findStringSubmatch rest
  | [], _, _ => rfl
  | c :: pre, rest, h => by
    have h0 : matchHere (c :: (pre ++ rest)) = none := h 0 (by simp)
    have ih := findStringSubmatch_skip pre rest (fun i hi => by
      have := h (i + 1) (by simp only [List.length_cons]; omega)
      simpa using this)
    have e : findStringSubmatch (c :: (pre ++ rest)) = findStringSubmatch (pre ++ rest) := by
      simp only [findStringSubmatch, h0]
    exact e.trans ih

/-- A string that begins with a core is matched at its head. -/
theorem findStringSubmatch_head (core rest : List Char) (hc : isCore core = true) :
    findStringSubmatch (core ++ rest) = matchHere core ∧ (matchHere core).isSome = true := by
  have hl := isCore_length core hc
  have hs : (matchHere core).isSome = true :=
    (matchHere_isSome core).mpr ⟨core, [], by simp, hc⟩
  refine ⟨?_, hs⟩
  rw [← matchHere_append core rest (by omega)]
  have hs' : (matchHere (core ++ rest)).isSome = true := by
    rw [matchHere_append core rest (by omega)]; exact hs
  cases hcr : core ++ rest with
  | nil =>
    rw [hcr] at hs'
    cases hs'
  | cons c cs =>
    rw [hcr] at hs'
    simp only [findStringSubmatch]
    cases hm : matchHere (c :: cs) with
    | none => rw [hm] at hs'; cases hs'
    | some m => rfl

/-- The upper-casing of a name of the form is its ASCII upper-casing, a core. -/
theorem goToUpper_hgtName (tbl : Char → Char) (c : List Char) (hc : isHgtName c = true) :
    isCore (goToUpper tbl c) = true := by
  unfold isHgtName at hc
  have hu : goToUpper tbl c = c.map Char.toUpper := by
    unfold goToUpper
    apply List.map_congr_left
    intro x hx
    apply toUpperRune_ascii
    apply toUpper_ascii
    exact isCore_ascii _ hc _ (List.mem_map_of_mem Char.toUpper hx)
  rw [hu]
  exact hc

/-- A name whose upper-cased form contains a core is decoded without error. -/
theorem hgtIndexFromName_of_hasCore (tbl : Char → Char) (name : String)
    (hc : HasCore (goToUpper tbl name.toList)) : (hgtIndexFromName tbl name).2 = none := by
  unfold hgtIndexFromName
  cases hf : findStringSubmatch (goToUpper tbl name.toList) with
  | none => exact absurd hc ((findStringSubmatch_none _).mp hf)
  | some m =>
    obtain ⟨m1, m2, m3, m4⟩ := m
    obtain ⟨s', hs'⟩ := findStringSubmatch_some _ _ hf
    obtain ⟨lat, lon, hlat, hlon⟩ := matchHere_decodes s' m1 m3 m2 m4 hs'
    simp only [hlat, hlon]

/-- C19: name matching is a substring search. For every well-formed core
`c = <N|S><2 digits><E|W><3 digits>.hgt` (letters in either case) and every prefix `p` and
suffix `s`, `hgtIndexFromName (p ++ c ++ s)` returns no error, and when the upper-cased
`p ++ c` has no occurrence of the pattern that starts before `c` it returns the cell of
`hgtIndexFromName c`; so `"N45E007.hgt.gz"` decodes to `(45, 7)`. -/
theorem hgtIndexFromName_substring (tbl : Char → Char) (p c s : List Char)
    (hc : isHgtName c = true) :
    (hgtIndexFromName tbl (String.mk (p ++ c ++ s))).2 = none ∧
    (¬ EarlierCore (goToUpper tbl (p ++ c)) p.length →
      hgtIndexFromName tbl (String.mk (p ++ c ++ s)) = hgtIndexFromName tbl (String.mk c)) ∧
    hgtIndexFromName tbl "N45E007.hgt.gz" = ({ lat := 45, lon := 7 }, none) := by
  have hcore := goToUpper_hgtName tbl c hc
  have hsplit : goToUpper tbl (p ++ c ++ s) =
      goToUpper tbl p ++ goToUpper tbl c ++ goToUpper tbl s := by
    unfold goToUpper
    simp only [List.map_append]
  refine ⟨?_, ?_, rfl⟩
  · apply hgtIndexFromName_of_hasCore
    show HasCore (goToUpper tbl (p ++ c ++ s))
    rw [hsplit]
    exact ⟨goToUpper tbl p, goToUpper tbl c, goToUpper tbl s, rfl, hcore⟩
  · intro hno
    have hpl : (goToUpper tbl p).length = p.length := by
      unfold goToUpper; simp only [List.length_map]
    have hcl : (goToUpper tbl c).length = 11 := isCore_length _ hcore
    have hskip : findStringSubmatch (goToUpper tbl p ++ (goToUpper tbl c ++ goToUpper tbl s)) =
        findStringSubmatch (goToUpper tbl c ++ goToUpper tbl s) := by
      apply findStringSubmatch_skip
      intro i hi
      rw [hpl] at hi
      -- a match at position `i` would lie inside the upper-cased `p ++ c`
      have hd : (goToUpper tbl p ++ (goToUpper tbl c ++ goToUpper tbl s)).drop i =
          (goToUpper tbl p ++ goToUpper tbl c).drop i ++ goToUpper tbl s := by
        rw [← List.append_assoc, List.drop_append_of_le_length]
        simp only [List.length_append, hpl]
        omega
      rw [hd, matchHere_append _ _ (by
        simp only [List.length_drop, List.length_append, hpl, hcl]; omega)]
      cases hm : matchHere ((goToUpper tbl p ++ goToUpper tbl c).drop i) with
      | none => rfl
      | some m =>
        exfalso
        obtain ⟨core, suf, he, hic⟩ := (matchHere_isSome _).mp (by rw [hm]; rfl)
        apply hno
        refine ⟨(goToUpper tbl p ++ goToUpper tbl c).take i, core, suf, ?_, hic, ?_⟩
        · have e : goToUpper tbl (p ++ c) = goToUpper tbl p ++ goToUpper tbl c := by
            unfold goToUpper; simp only [List.map_append]
          rw [e, List.append_assoc, ← he, List.take_append_drop]
        · simp only [List.length_take, List.length_append, hpl, hcl]
          omega
    have hhead := (findStringSubmatch_head (goToUpper tbl c) (goToUpper tbl s) hcore).1
    have hself := (findStringSubmatch_head (goToUpper tbl c) [] hcore).1
    rw [List.append_nil] at hself
    unfold hgtIndexFromName
    show (match findStringSubmatch (goToUpper tbl (p ++ c ++ s)) with
      | some (m1, m2, m3, m4) => _
      | none => _) = (match findStringSubmatch (goToUpper tbl c) with
      | some (m1, m2, m3, m4) => _
      | none => _)
    rw [hsplit, List.append_assoc, hskip, hhead, hself]

/-- C19 for the core `n45W007.hGt` between `tiles/` and `.bz2`. -/
theorem hgtIndexFromName_substring_witness :
    (hgtIndexFromName id (String.mk ("tiles/".toList ++ "n45W007.hGt".toList ++
      ".bz2".toList))).2 = none ∧
    (¬ EarlierCore (goToUpper id ("tiles/".toList ++ "n45W007.hGt".toList))
        "tiles/".toList.length →
      hgtIndexFromName id (String.mk ("tiles/".toList ++ "n45W007.hGt".toList ++
        ".bz2".toList)) = hgtIndexFromName id (String.mk "n45W007.hGt".toList)) ∧
    hgtIndexFromName id "N45E007.hgt.gz" = ({ lat := 45, lon := 7 }, none) :=
  hgtIndexFromName_substring id "tiles/".toList "n45W007.hGt".toList ".bz2".toList (by decide)

/-! ## Processing one file -/

/-- `readHgtFile` never panics. -/
theorem readHgtFile_returns (N : Nat) (fs : Files) (path : String) :
    ∃ hgt err, readHgtFile N fs path = Except.ok (hgt, err) ∧
      (∀ data, hgt = some data → err = none ∧ data.length = N * N * 2) := by
  have hgrid : ∀ a : ReadAnswer, ∃ hgt err, readGrid N a = Except.ok (hgt, err) ∧
      (∀ data, hgt = some data → err = none ∧ data.length = N * N * 2) := by
    intro a
    cases a with
    | failed e => exact ⟨none, some e, rfl, fun _ h => by cases h⟩
    | data d =>
      by_cases hlen : d.length = N * N * 2
      · obtain ⟨r, hr, hl, -⟩ := swapBytes_spec N d hlen
        refine ⟨some r, none, ?_, ?_⟩
        · unfold readGrid
          simp only [hlen, ne_eq, not_true_eq_false, if_false, hr]
        · intro data hd
          cases hd
          exact ⟨rfl, hl⟩
      · refine ⟨none, some "invalid HGT size", ?_, fun _ h => by cases h⟩
        unfold readGrid
        simp only [ne_eq, hlen, not_false_eq_true, if_true]
  unfold readHgtFile
  cases ho : fs.openErr path with
  | some e => exact ⟨none, some e, rfl, fun _ h => by cases h⟩
  | none =>
    simp only
    split
    · exact hgrid _
    · split
      · exact hgrid _
      · split
        · exact hgrid _
        · split
          · exact ⟨none, none, rfl, fun _ h => by cases h⟩
          · exact ⟨none, _, rfl, fun _ h => by cases h⟩

/-- The only error of `hgtIndexFromName` is the name format error. -/
theorem hgtIndexFromName_error (tbl : Char → Char) (name : String) :
    (hgtIndexFromName tbl name).2 = none ∨
    hgtIndexFromName tbl name = ({ lat := 0, lon := 0 }, some "invalid HGT file name") := by
  by_cases hc : HasCore (goToUpper tbl name.toList)
  · exact Or.inl (hgtIndexFromName_of_hasCore tbl name hc)
  · right
    unfold hgtIndexFromName
    rw [(findStringSubmatch_none _).mpr hc]

/-- C15 fails on the code: the name `garbage.xml` does not decode to a cell, yet `processHgt`
returns no error for it, and for the name `garbage.hgt` with a stream of the wrong size it
returns the size error; the file is read before its name is decoded. -/
theorem processHgt_reads_before_name :
    hgtIndexFromName id "garbage.xml" =
      ({ lat := 0, lon := 0 }, some "invalid HGT file name") ∧
    (∃ r : FileResult 1,
      processHgt 2 1 2 id (Files.holding raw8) joinPlain (fun d => d)
        (fun _ => FileAnswers.good) "garbage.xml" "dir" (StorageWriter.fresh 1) =
        Except.ok r ∧ r.err = none ∧ r.puts = []) ∧
    hgtIndexFromName id "garbage.hgt" =
      ({ lat := 0, lon := 0 }, some "invalid HGT file name") ∧
    (∃ r : FileResult 1,
      processHgt 1 1 2 id (Files.holding raw8) joinPlain (fun d => d)
        (fun _ => FileAnswers.good) "garbage.hgt" "dir" (StorageWriter.fresh 1) =
        Except.ok r ∧ r.err = some "invalid HGT size" ∧ r.puts = []) :=
  ⟨rfl, ⟨_, rfl, rfl, rfl⟩, rfl, ⟨_, rfl, rfl, rfl⟩⟩

/-- C15, as the code has it: for every file whose name does not decode to a cell,
`processHgt` puts no tile and leaves the writer as it was, whatever the extension and
contents of the file; it returns the name format error when `readHgtFile` has returned a
grid, and otherwise what `readHgtFile` returned: its error, or no error for the no-op
extension. -/
theorem processHgt_bad_name (N S T : Nat) (tbl : Char → Char) (fs : Files)
    (join : String → String → String) (compressTile : List Byte → List Byte)
    (answers : Nat → FileAnswers) (filename hgtDir : String) (storage : StorageWriter S)
    (hbad : (hgtIndexFromName tbl filename).2 ≠ none) :
    ∃ (hgt : Option (List Byte)) (err : Option String),
      readHgtFile N fs (join hgtDir filename) = Except.ok (hgt, err) ∧
      processHgt N S T tbl fs join compressTile answers filename hgtDir storage =
        Except.ok { err := if hgt.isSome = true then some "invalid HGT file name" else err,
                    storage := storage, puts := [] } := by
  obtain ⟨hgt, err, hread, hsome⟩ := readHgtFile_returns N fs (join hgtDir filename)
  refine ⟨hgt, err, hread, ?_⟩
  have hname : hgtIndexFromName tbl filename =
      ({ lat := 0, lon := 0 }, some "invalid HGT file name") := by
    rcases hgtIndexFromName_error tbl filename with h | h
    · exact absurd h hbad
    · exact h
  unfold processHgt
  rw [hread]
  cases hgt with
  | none =>
    cases err with
    | none => rfl
    | some e => rfl
  | some data =>
    obtain ⟨he, -⟩ := hsome data rfl
    subst he
    simp only [hname, Option.isSome_some, if_true]

/-- C15 as the code has it, for the name `garbage.hgt` and a grid of the right size. -/
theorem processHgt_bad_name_witness :
    ∃ (hgt : Option (List Byte)) (err : Option String),
      readHgtFile 2 (Files.holding raw8) (joinPlain "dir" "garbage.hgt") =
        Except.ok (hgt, err) ∧
      processHgt 2 1 2 id (Files.holding raw8) joinPlain (fun d => d)
        (fun _ => FileAnswers.good) "garbage.hgt" "dir" (StorageWriter.fresh 1) =
        Except.ok { err := if hgt.isSome = true then some "invalid HGT file name" else err,
                    storage := StorageWriter.fresh 1, puts := [] } :=
  processHgt_bad_name 2 1 2 id (Files.holding raw8) joinPlain (fun d => d)
    (fun _ => FileAnswers.good) "garbage.hgt" "dir" (StorageWriter.fresh 1) (by decide)

/-- The loop of `processHgt` from the put number `k` on, told by the `PutTile` calls
themselves: `ws i` is the writer on which the put number `i` is called. When every put
returns no error the loop returns none with the writer the last put left; when a put returns
an error after the puts before it returned none, the loop returns that error with the writer
that put left; and when that put panics, so does the loop. -/
theorem putLoop_chain (S : Nat) (compressTile : List Byte → List Byte)
    (answers : Nat → FileAnswers) (ws : Nat → StorageWriter S) :
    ∀ (tiles : List TileRaw) (k : Nat) (log : List TileRaw),
    ((∀ (i : Nat) (t : TileRaw), tiles[i]? = some t →
        PutTile S compressTile (answers (k + i)) (ws (k + i)) t =
          Except.ok (none, ws (k + i + 1))) →
      putLoop S compressTile answers tiles k (ws k) log =
        Except.ok { err := none, storage := ws (k + tiles.length), puts := log ++ tiles }) ∧
    (∀ (i : Nat) (t : TileRaw) (e : String) (w : StorageWriter S), tiles[i]? = some t →
      (∀ (j : Nat) (u : TileRaw), j < i → tiles[j]? = some u →
        PutTile S compressTile (answers (k + j)) (ws (k + j)) u =
          Except.ok (none, ws (k + j + 1))) →
      PutTile S compressTile (answers (k + i)) (ws (k + i)) t = Except.ok (some e, w) →
      putLoop S compressTile answers tiles k (ws k) log =
        Except.ok { err := some e, storage := w, puts := log ++ tiles.take (i + 1) }) ∧
    (∀ (i : Nat) (t : TileRaw) (p : String), tiles[i]? = some t →
      (∀ (j : Nat) (u : TileRaw), j < i → tiles[j]? = some u →
        PutTile S compressTile (answers (k + j)) (ws (k + j)) u =
          Except.ok (none, ws (k + j + 1))) →
      PutTile S compressTile (answers (k + i)) (ws (k + i)) t = Except.error p →
      putLoop S compressTile answers tiles k (ws k) log = Except.error p) := by
  intro tiles
  induction tiles with
  | nil =>
    intro k log
    refine ⟨fun _ => by simp [putLoop], ?_, ?_⟩
    · intro i t e w h
      simp at h
    · intro i t p h
      simp at h
  | cons t0 rest ih =>
    intro k log
    have hs : ∀ i : Nat, k + 1 + i = k + (i + 1) := fun i => by omega
    refine ⟨?_, ?_, ?_⟩
    · intro hall
      have h0 := hall 0 t0 (List.getElem?_cons_zero)
      rw [Nat.add_zero] at h0
      have hrest := (ih (k + 1) (log ++ [t0])).1 (fun i t hi => by
        rw [hs]
        exact hall (i + 1) t (by rw [List.getElem?_cons_succ]; exact hi))
      have hlen : k + (t0 :: rest).length = k + 1 + rest.length := by
        simp only [List.length_cons]; omega
      simp only [putLoop, h0, hrest, hlen, List.append_assoc, List.singleton_append]
    · intro i t e w hi hbefore hput
      cases i with
      | zero =>
        simp only [List.getElem?_cons_zero, Option.some.injEq] at hi
        subst hi
        rw [Nat.add_zero] at hput
        simp only [putLoop, hput, List.take_succ_cons, List.take_zero]
      | succ i =>
        simp only [List.getElem?_cons_succ] at hi
        have h0 := hbefore 0 t0 (by omega) (List.getElem?_cons_zero)
        rw [Nat.add_zero] at h0
        have hrest := (ih (k + 1) (log ++ [t0])).2.1 i t e w hi
          (fun j u hj hu => by
            rw [hs]
            exact hbefore (j + 1) u (by omega) (by rw [List.getElem?_cons_succ]; exact hu))
          (by rw [hs]; exact hput)
        simp only [putLoop, h0, hrest, List.append_assoc, List.singleton_append,
          List.take_succ_cons]
    · intro i t p hi hbefore hput
      cases i with
      | zero =>
        simp only [List.getElem?_cons_zero, Option.some.injEq] at hi
        subst hi
        rw [Nat.add_zero] at hput
        simp only [putLoop, hput]
      | succ i =>
        simp only [List.getElem?_cons_succ] at hi
        have h0 := hbefore 0 t0 (by omega) (List.getElem?_cons_zero)
        rw [Nat.add_zero] at h0
        have hrest := (ih (k + 1) (log ++ [t0])).2.2 i t p hi
          (fun j u hj hu => by
            rw [hs]
            exact hbefore (j + 1) u (by omega) (by rw [List.getElem?_cons_succ]; exact hu))
          (by rw [hs]; exact hput)
        simp only [putLoop, h0, hrest]

/-- A `PutTile` whose file operations succeed panics on a tile on the edge of the table. -/
theorem PutTile_onEdge (S : Nat) (compressTile : List Byte → List Byte) (env : FileAnswers)
    (storage : StorageWriter S) (tile : TileRaw)
    (hseek : env.seekErr = none) (hwrite : env.writeErr = none)
    (hedge : OnEdge S tile.Index) :
    PutTile S compressTile env storage tile = Except.error "index out of range" := by
  unfold OnEdge at hedge
  unfold PutTile
  simp only [hseek, hwrite]
  rw [if_neg (by omega), dif_neg (by omega)]

/-- C16 fails on the code for a cell on the 180th meridian, by the defect of C7. For a file
that `readHgtFile` reads to a grid and whose name decodes to a cell (the tiles fitting the
grid), `processHgt` calls `PutTile` on the `S*S` tiles of `splitDem` one after another in the
order of the tile set (position `dy*S+dx`), each on the writer the put before it left
(`ws i` is the writer of the put number `i`): if every put returns no error, it returns no
error with the writer that the last of the `S*S` puts left; if a put returns an error
after the puts before it returned none, it returns that error with the writer that put left,
having put the tiles up to that one and none after it. But a put that panics makes
`processHgt` panic instead of returning an error, and for a cell with `lon = 180` and
`-90 ≤ lat ≤ 90` the first put, when its file operations succeed, does so. -/
theorem processHgt_puts_in_order (N S T : Nat)
    (hgeo : ((T : Int) - 1) * (S : Int) ≤ (N : Int) - 1)
    (tbl : Char → Char) (fs : Files) (join : String → String → String)
    (compressTile : List Byte → List Byte) (answers : Nat → FileAnswers)
    (filename hgtDir : String) (storage : StorageWriter S)
    (data : List Byte) (index : HgtIndex)
    (hread : readHgtFile N fs (join hgtDir filename) = Except.ok (some data, none))
    (hname : hgtIndexFromName tbl filename = (index, none)) :
    ∃ tiles : List TileRaw, splitDem N S T index data = Except.ok tiles ∧
      tiles.length = S * S ∧
      (∀ dx dy : Nat, dx < S → dy < S → ∃ t, tiles[dy * S + dx]? = some t ∧
        t.Index = { X := index.lon * (S : Int) + (dx : Int),
                    Y := index.lat * (S : Int) + (dy : Int) }) ∧
      (∀ ws : Nat → StorageWriter S, ws 0 = storage →
        (∀ (i : Nat) (t : TileRaw), tiles[i]? = some t →
          PutTile S compressTile (answers i) (ws i) t = Except.ok (none, ws (i + 1))) →
        processHgt N S T tbl fs join compressTile answers filename hgtDir storage =
          Except.ok { err := none, storage := ws (S * S), puts := tiles }) ∧
      (∀ (ws : Nat → StorageWriter S) (i : Nat) (t : TileRaw) (e : String)
          (w : StorageWriter S), ws 0 = storage → tiles[i]? = some t →
        (∀ (j : Nat) (u : TileRaw), j < i → tiles[j]? = some u →
          PutTile S compressTile (answers j) (ws j) u = Except.ok (none, ws (j + 1))) →
        PutTile S compressTile (answers i) (ws i) t = Except.ok (some e, w) →
        processHgt N S T tbl fs join compressTile answers filename hgtDir storage =
          Except.ok { err := some e, storage := w, puts := tiles.take (i + 1) }) ∧
      (∀ (ws : Nat → StorageWriter S) (i : Nat) (t : TileRaw) (p : String),
        ws 0 = storage → tiles[i]? = some t →
        (∀ (j : Nat) (u : TileRaw), j < i → tiles[j]? = some u →
          PutTile S compressTile (answers j) (ws j) u = Except.ok (none, ws (j + 1))) →
        PutTile S compressTile (answers i) (ws i) t = Except.error p →
        processHgt N S T tbl fs join compressTile answers filename hgtDir storage =
          Except.error p) ∧
      (0 < S → index.lon = 180 → -90 ≤ index.lat → index.lat ≤ 90 →
        (answers 0).seekErr = none → (answers 0).writeErr = none →
        processHgt N S T tbl fs join compressTile answers filename hgtDir storage =
          Except.error "index out of range") := by
  have hlen : data.length = N * N * 2 := by
    obtain ⟨hgt, err, hr, hsome⟩ := readHgtFile_returns N fs (join hgtDir filename)
    rw [hread] at hr
    cases hr
    exact (hsome data rfl).2
  obtain ⟨tiles, hrun, hl, hall⟩ := splitDem_spec N S T hgeo index data hlen
  have hproc : processHgt N S T tbl fs join compressTile answers filename hgtDir storage =
      putLoop S compressTile answers tiles 0 storage [] := by
    unfold processHgt
    simp only [hread, hname, hrun]
  refine ⟨tiles, hrun, hl, ?_, ?_, ?_, ?_, ?_⟩
  · intro dx dy hdx hdy
    obtain ⟨t, hget, hX, hY, -⟩ := hall dx hdx dy hdy
    refine ⟨t, hget, ?_⟩
    cases t with
    | mk idx d =>
      cases idx with
      | mk x y =>
        simp only at hX hY
        simp only [hX, hY]
  · intro ws h0 hput
    obtain ⟨hA, -, -⟩ := putLoop_chain S compressTile answers ws tiles 0 []
    simp only [Nat.zero_add, List.nil_append, h0, hl] at hA
    rw [hproc]
    exact hA hput
  · intro ws i t e w h0 hi hbefore hput
    obtain ⟨-, hB, -⟩ := putLoop_chain S compressTile answers ws tiles 0 []
    simp only [Nat.zero_add, List.nil_append, h0] at hB
    rw [hproc]
    exact hB i t e w hi hbefore hput
  · intro ws i t p h0 hi hbefore hput
    obtain ⟨-, -, hC⟩ := putLoop_chain S compressTile answers ws tiles 0 []
    simp only [Nat.zero_add, List.nil_append, h0] at hC
    rw [hproc]
    exact hC i t p hi hbefore hput
  · intro hS hlon hlat1 hlat2 hseek hwrite
    obtain ⟨t, hget, hX, hY, -⟩ := hall 0 hS 0 hS
    simp only [Nat.zero_mul, Nat.add_zero] at hget
    have hSi : (0 : Int) ≤ (S : Int) := by omega
    have h1 : (-90) * (S : Int) ≤ index.lat * (S : Int) :=
      Int.mul_le_mul_of_nonneg_right hlat1 hSi
    have h2 : index.lat * (S : Int) ≤ 90 * (S : Int) :=
      Int.mul_le_mul_of_nonneg_right hlat2 hSi
    have hedge : OnEdge S t.Index := by
      unfold OnEdge indexWidth indexHeight
      rw [hX, hY, hlon]
      push_cast
      omega
    obtain ⟨-, -, hC⟩ := putLoop_chain S compressTile answers (fun _ => storage) tiles 0 []
    simp only [Nat.zero_add, List.nil_append] at hC
    rw [hproc]
    exact hC 0 t "index out of range" hget (fun j u hj => absurd hj (Nat.not_lt_zero j))
      (PutTile_onEdge S compressTile (answers 0) storage t hseek hwrite hedge)

/-- C16 at the file `N45E180.hgt` holding a 2×2 grid, in one tile. -/
theorem processHgt_puts_in_order_witness :
    ∃ tiles : List TileRaw,
      splitDem 2 1 2 ⟨45, 180⟩ [2, 1, 4, 3, 6, 5, 8, 7] = Except.ok tiles ∧
      tiles.length = 1 * 1 ∧
      (∀ dx dy : Nat, dx < 1 → dy < 1 → ∃ t, tiles[dy * 1 + dx]? = some t ∧
        t.Index = { X := 180 * ((1 : Nat) : Int) + (dx : Int),
                    Y := 45 * ((1 : Nat) : Int) + (dy : Int) }) ∧
      (∀ ws : Nat → StorageWriter 1, ws 0 = StorageWriter.fresh 1 →
        (∀ (i : Nat) (t : TileRaw), tiles[i]? = some t →
          PutTile 1 (fun d => d) FileAnswers.good (ws i) t = Except.ok (none, ws (i + 1))) →
        processHgt 2 1 2 id (Files.holding raw8) joinPlain (fun d => d)
            (fun _ => FileAnswers.good) "N45E180.hgt" "dir" (StorageWriter.fresh 1) =
          Except.ok { err := none, storage := ws (1 * 1), puts := tiles }) ∧
      (∀ (ws : Nat → StorageWriter 1) (i : Nat) (t : TileRaw) (e : String)
          (w : StorageWriter 1), ws 0 = StorageWriter.fresh 1 → tiles[i]? = some t →
        (∀ (j : Nat) (u : TileRaw), j < i → tiles[j]? = some u →
          PutTile 1 (fun d => d) FileAnswers.good (ws j) u = Except.ok (none, ws (j + 1))) →
        PutTile 1 (fun d => d) FileAnswers.good (ws i) t = Except.ok (some e, w) →
        processHgt 2 1 2 id (Files.holding raw8) joinPlain (fun d => d)
            (fun _ => FileAnswers.good) "N45E180.hgt" "dir" (StorageWriter.fresh 1) =
          Except.ok { err := some e, storage := w, puts := tiles.take (i + 1) }) ∧
      (∀ (ws : Nat → StorageWriter 1) (i : Nat) (t : TileRaw) (p : String),
        ws 0 = StorageWriter.fresh 1 → tiles[i]? = some t →
        (∀ (j : Nat) (u : TileRaw), j < i → tiles[j]? = some u →
          PutTile 1 (fun d => d) FileAnswers.good (ws j) u = Except.ok (none, ws (j + 1))) →
        PutTile 1 (fun d => d) FileAnswers.good (ws i) t = Except.error p →
        processHgt 2 1 2 id (Files.holding raw8) joinPlain (fun d => d)
            (fun _ => FileAnswers.good) "N45E180.hgt" "dir" (StorageWriter.fresh 1) =
          Except.error p) ∧
      (0 < 1 → (180 : Int) = 180 → -90 ≤ (45 : Int) → (45 : Int) ≤ 90 →
        FileAnswers.good.seekErr = none → FileAnswers.good.writeErr = none →
        processHgt 2 1 2 id (Files.holding raw8) joinPlain (fun d => d)
            (fun _ => FileAnswers.good) "N45E180.hgt" "dir" (StorageWriter.fresh 1) =
          Except.error "index out of range") :=
  processHgt_puts_in_order 2 1 2 (by decide) id (Files.holding raw8) joinPlain (fun d => d)
    (fun _ => FileAnswers.good) "N45E180.hgt" "dir" (StorageWriter.fresh 1)
    [2, 1, 4, 3, 6, 5, 8, 7] ⟨45, 180⟩ rfl rfl

/-- The model of `processHgt` run on the file `N45E007.hgt` holding a 3×3 grid, split into
2×2 tiles, when the `Write` of the third put fails: the error is returned after three puts, the
writer holds the payloads and records of the first two tiles and no record of the third. -/
theorem processHgt_third_put_fails :
    ∃ r : FileResult 2,
      processHgt 3 2 2 id (Files.holding raw18) joinPlain (fun d => d) (failAt 2)
        "N45E007.hgt" "dir" (StorageWriter.fresh 2) = Except.ok r ∧
      r.err = some "disk full" ∧
      r.puts.map TileRaw.Index = [⟨14, 90⟩, ⟨15, 90⟩, ⟨14, 91⟩] ∧
      r.storage.fData.bytes =
        [13, 12, 15, 14, 7, 6, 9, 8, 15, 14, 17, 16, 9, 8, 11, 10] ∧
      r.storage.lookup ⟨14, 90⟩ = some { offset := 0, length := 8 } ∧
      r.storage.lookup ⟨15, 90⟩ = some { offset := 8, length := 8 } ∧
      r.storage.lookup ⟨14, 91⟩ = some { offset := 0, length := 0 } :=
  ⟨_, rfl, rfl, rfl, rfl, rfl, rfl, rfl⟩

/-- The model of `processHgt` run on the file `N45E180.hgt`: the first tile has `x = width`,
its put passes the range check and the call panics. -/
theorem processHgt_edge_file_panics :
    processHgt 2 1 2 id (Files.holding raw8) joinPlain (fun d => d)
      (fun _ => FileAnswers.good) "N45E180.hgt" "dir" (StorageWriter.fresh 1) =
      Except.error "index out of range" := by
  rfl

end ElevationServer
